import Mathlib

/-!
# Output-weight network and move-plane encoder

A shallow embedding of `OutputWeightNet` (src/evaluate.cpp), of `moveToLayer`
and `bbsToPaddedInput` (src/policy/policyNet.cpp) and of `scoreMoveList`
(src/policy/policyNet.h), followed by the properties established about them.

Conventions of the embedding:
* C++ `int` values are integers; arithmetic on them is exact (signed overflow of
  `int` is undefined in C++ and is not modelled);
* a conversion to `int16_t` or `int8_t` keeps the value modulo 2^16 or 2^8 in
  the signed range (`toInt16`, `toInt8`);
* arrays are read through functions from indices, so that a read or a write
  keeps the index the code computes;
* memory the code leaves uninitialised is a parameter of the function that
  reads it;
* `float` operations are kept abstract (`FloatOps`); the constants `0` and
  `1.0f` of the input tensor are the numbers 0 and 1.
-/

namespace Stockfish

/-! ## Machine integers -/

/-- Conversion of an `int` to `int16_t`: wrap-around into [-32768, 32767]. -/
def toInt16 (x : Int) : Int := (x + 32768) % 65536 - 32768

/-- Conversion of an `int` to `int8_t`: wrap-around into [-128, 127]. -/
def toInt8 (x : Int) : Int := (x + 128) % 256 - 128

/-! ## Types of types.h used by the network -/

/-- Modelled from the spec: the enumeration `Color` of types.h (absent from the
sources); `WHITE` and `BLACK` index the two accumulators. -/
inductive Color where
  | WHITE
  | BLACK
  deriving DecidableEq, Repr

open Color

/-- Modelled from the spec: `operator~` on `Color` of types.h (absent), the
opposite colour. -/
def Color.opp : Color → Color
  | WHITE => BLACK
  | BLACK => WHITE

/-- Modelled from the spec: piece types of types.h (absent) are array indices;
the array `max` of evaluate.cpp lists the caps 0, 8, 2, 2, 2, 1 from index 0
(no piece) to index 5 (queen), so pawn to queen are the indices 1 to 5. -/
abbrev PieceType := Nat

def PAWN : PieceType := 1
def KNIGHT : PieceType := 2
def BISHOP : PieceType := 3
def ROOK : PieceType := 4
def QUEEN : PieceType := 5

/-- Modelled from the spec: `OWNKey` of types.h (absent), the piece-count
signature: a table `pieceCount[colour][pieceType]` of `int` counts. -/
structure OWNKey where
  pieceCount : Color → PieceType → Int

/-- Modelled from the spec: `OWNKey()`, the signature with every count zero. -/
def OWNKey.zero : OWNKey := ⟨fun _ _ => 0⟩

/-- Modelled from the spec: `OWNKey::count(c, pt)` (absent), the count the
signature maps colour `c` and piece type `pt` to. -/
def OWNKey.count (k : OWNKey) (c : Color) (pt : PieceType) : Int := k.pieceCount c pt

/-- Bound a count to the range `0..m` of one digit of the key. -/
def capCount (m : Nat) (x : Int) : Nat := min x.toNat m

/-- Modelled from the spec: `OWNKey::key(c)` (absent) folds the counts of one
colour into one integer in [0, 486): pawns 0-8, knights, bishops and rooks
capped at 2, queens capped at 1, as mixed-radix digits in the order of
`keyCombinations = 9 * 3 * 3 * 3 * 2`. -/
def OWNKey.key (k : OWNKey) (c : Color) : Nat :=
  capCount 8 (k.count c PAWN)
    + 9 * (capCount 2 (k.count c KNIGHT)
      + 3 * (capCount 2 (k.count c BISHOP)
        + 3 * (capCount 2 (k.count c ROOK)
          + 3 * capCount 1 (k.count c QUEEN))))

/-- The statement `pieceCount[c][pt] += diff` on a signature. -/
def OWNKey.addCount (k : OWNKey) (c : Color) (pt : PieceType) (diff : Int) : OWNKey :=
  ⟨fun c' pt' => if c' = c ∧ pt' = pt then k.pieceCount c' pt' + diff else k.pieceCount c' pt'⟩

/-! ## OutputWeightNet (src/evaluate.cpp) -/

def INPUT_SIZE : Nat := 5
def HIDDEN_SIZE : Nat := 64
def OUTPUT_SIZE : Nat := 32

/-- Declared length of the global array `l1Weights[OUTPUT_SIZE * HIDDEN_SIZE]`. -/
def l1WeightsLength : Nat := OUTPUT_SIZE * HIDDEN_SIZE

/-- The four global `int` arrays of evaluate.cpp, each as the value a read at
an index yields. -/
structure Weights where
  l0Weights : Nat → Int
  l1Weights : Nat → Int
  l0biases : Nat → Int
  l1biases : Nat → Int

def keyCombinations : Nat := 9 * 3 * 3 * 3 * 2

/-- Position of `cache[a][b]` in the storage of the nested array `cache`. -/
def cacheIndex (a b : Nat) : Nat := a * keyCombinations + b

/-- The mutable members of `OutputWeightNet`: the two `int16_t` accumulators,
the tracked signature, and the cache of pointers (`none` for a null pointer,
`some v` for a pointer to a buffer holding the `int8_t` vector `v`). -/
structure OutputWeightNet where
  accumulator : Color → Nat → Int
  accInputKey : OWNKey
  cache : Nat → Option (List Int)

/-- The assignment `accumulator[c][i] = v`. -/
def setAcc (acc : Color → Nat → Int) (c : Color) (i : Nat) (v : Int) : Color → Nat → Int :=
  fun c' i' => if c' = c ∧ i' = i then v else acc c' i'

/-- The assignment `*entry = p` for the slot at position `slot`. -/
def setCache (cache : Nat → Option (List Int)) (slot : Nat) (p : Option (List Int)) :
    Nat → Option (List Int) :=
  fun s => if s = slot then p else cache s

/-- The constructor `OutputWeightNet()`, run on the storage `raw` that
`new OutputWeightNet` obtained. Its first loop fills copies of the cache rows
(`for (auto entry : cache)`), so the cache keeps what `raw` held; the second
loop stores `l0biases[i]` into both accumulators; `accInputKey` is `OWNKey()`. -/
def OutputWeightNet.construct (W : Weights) (raw : OutputWeightNet) : OutputWeightNet :=
  { accumulator :=
      (List.range HIDDEN_SIZE).foldl
        (fun a i =>
          let v := toInt16 (W.l0biases i)
          setAcc (setAcc a BLACK i v) WHITE i v)
        raw.accumulator
    accInputKey := OWNKey.zero
    cache := raw.cache }

/-- The function `relu(int8_t val)`: `std::max(val, int8_t(0))`. -/
def relu (val : Int) : Int := max val 0

/-- The overload `updateAccumulator(Color c, int index, int difference)`. -/
def updateAccumulatorRow (W : Weights) (acc : Color → Nat → Int) (c : Color) (index : Nat)
    (difference : Int) : Color → Nat → Int :=
  if difference = 0 then acc
  else
    (List.range HIDDEN_SIZE).foldl
      (fun a i => setAcc a c i (toInt16 (a c i + difference * W.l0Weights (index * HIDDEN_SIZE + i))))
      acc

/-- One pass of the inner loop body of `updateAccumulator(const OWNKey&)`. -/
def updateAccumulatorStep (W : Weights) (newKey : OWNKey) (c : Color) (net : OutputWeightNet)
    (pt : PieceType) : OutputWeightNet :=
  let diff := newKey.count c pt - net.accInputKey.count c pt
  { net with
    accumulator := updateAccumulatorRow W net.accumulator c (pt - 1) diff
    accInputKey := net.accInputKey.addCount c pt diff }

/-- The overload `updateAccumulator(const OWNKey& newKey)`. -/
def updateAccumulator (W : Weights) (net : OutputWeightNet) (newKey : OWNKey) : OutputWeightNet :=
  [WHITE, BLACK].foldl
    (fun n c => [PAWN, KNIGHT, BISHOP, ROOK, QUEEN].foldl (updateAccumulatorStep W newKey c) n)
    net

/-- Content of `out[i]` after `memset(&out, 0, sizeof(int8_t) * OUTPUT_SIZE)`:
`out` is an array of `int16_t`, entry `i` occupies bytes `2 * i` and
`2 * i + 1`, and the call zeroes the first `1 * OUTPUT_SIZE` bytes; the other
entries keep what the stack held (`stack`). -/
def outAfterMemset (stack : Nat → Int) (i : Nat) : Int :=
  if 2 * i + 2 ≤ 1 * OUTPUT_SIZE then 0 else stack i

/-- The value of `out[i]` when the inner loop of `forward` over `j` ends. -/
def forwardOut (W : Weights) (acc : Color → Nat → Int) (stack : Nat → Int) (i : Nat) : Int :=
  (List.range HIDDEN_SIZE).foldl
    (fun o j =>
      let index := i * HIDDEN_SIZE + j
      let o1 := toInt16 (o + relu (toInt8 (acc WHITE j)) * W.l1Weights index)
      toInt16 (o1 + relu (toInt8 (acc BLACK j)) * W.l1Weights (index + OUTPUT_SIZE * HIDDEN_SIZE)))
    (outAfterMemset stack i)

/-- The value `forward` stores in `entry[i]`:
`int8_t((out[i] + l1biases[i]) / 256)`, the division truncating. -/
def forwardEntry (W : Weights) (acc : Color → Nat → Int) (stack : Nat → Int) (i : Nat) : Int :=
  toInt8 (Int.tdiv (forwardOut W acc stack i + W.l1biases i) 256)

/-- The function `forward(int8_t* entry)`: the content of the buffer `entry`
when it returns. -/
def forward (W : Weights) (acc : Color → Nat → Int) (stack : Nat → Int) : List Int :=
  (List.range OUTPUT_SIZE).map (forwardEntry W acc stack)

/-- The function `getWeights(key, stm)`: the vector behind the returned pointer
and the net after the call. `malloc` is taken to succeed; `stack` is what the
stack holds where `forward` places `out`. -/
def getWeights (W : Weights) (net : OutputWeightNet) (key : OWNKey) (stm : Color)
    (stack : Nat → Int) : List Int × OutputWeightNet :=
  let slot := cacheIndex (key.key stm) (key.key stm.opp)
  match net.cache slot with
  | some v => (v, net)
  | none =>
    let net1 := updateAccumulator W net key
    let v := forward W net1.accumulator stack
    (v, { net1 with cache := setCache net1.cache slot (some v) })

/-! ## moveToLayer (src/policy/policyNet.cpp) -/

/-- The function `moveToLayer(int from, int to)`. -/
def moveToLayer (fromSq toSq : Int) : Int :=
  let V_POS_OFFSET : Int := -1
  let V_NEG_OFFSET : Int := V_POS_OFFSET + 7
  let H_POS_OFFSET : Int := V_NEG_OFFSET + 7
  let H_NEG_OFFSET : Int := H_POS_OFFSET + 7
  let D1_POS_OFFSET : Int := H_NEG_OFFSET + 7
  let D1_NEG_OFFSET : Int := D1_POS_OFFSET + 7
  let D2_POS_OFFSET : Int := D1_NEG_OFFSET + 7
  let D2_NEG_OFFSET : Int := D2_POS_OFFSET + 7
  let KNIGHT_OFFSET1 : Int := 56
  let KNIGHT_OFFSET2 : Int := 58
  let KNIGHT_OFFSET3 : Int := 60
  let KNIGHT_OFFSET4 : Int := 62
  let fromFile : Int := Int.land fromSq 7
  let fromRank : Int := (Int.land fromSq 56) >>> 3
  let toFile : Int := Int.land toSq 7
  let toRank : Int := (Int.land toSq 56) >>> 3
  if fromFile = toFile then
    (if fromRank > toRank then fromRank - toRank + V_POS_OFFSET else toRank - fromRank + V_NEG_OFFSET)
  else if fromRank = toRank then
    (if fromFile > toFile then fromFile - toFile + H_POS_OFFSET else toFile - fromFile + H_NEG_OFFSET)
  else if fromRank + fromFile = toRank + toFile then
    (if fromFile > toFile then fromFile - toFile + D1_POS_OFFSET else toFile - fromFile + D1_NEG_OFFSET)
  else if fromRank - fromFile = toRank - toFile then
    (if fromFile > toFile then fromFile - toFile + D2_POS_OFFSET else toFile - fromFile + D2_NEG_OFFSET)
  else if fromRank - toRank > 1 then
    KNIGHT_OFFSET1 + (if fromFile > toFile then 1 else 0)
  else if toRank - fromRank > 1 then
    KNIGHT_OFFSET2 + (if fromFile > toFile then 1 else 0)
  else if toFile - fromFile > 1 then
    KNIGHT_OFFSET3 + (if fromRank > toRank then 1 else 0)
  else if fromFile - toFile > 1 then
    KNIGHT_OFFSET4 + (if fromRank > toRank then 1 else 0)
  else 0

/-- File of a square, `sq & 7` (as `file_of` in the engine). -/
def fileOf (sq : Int) : Int := sq % 8

/-- Rank of a square, `sq >> 3` (as `rank_of` in the engine). -/
def rankOf (sq : Int) : Int := sq / 8

/-- A square index of the 8 x 8 board. -/
def IsSquare (sq : Int) : Prop := 0 ≤ sq ∧ sq < 64

instance (sq : Int) : Decidable (IsSquare sq) := by unfold IsSquare; infer_instance

/-- Two squares share a file, a rank or a diagonal. -/
def OnCommonLine (a b : Int) : Prop :=
  fileOf a = fileOf b ∨ rankOf a = rankOf b ∨
    rankOf a + fileOf a = rankOf b + fileOf b ∨ rankOf a - fileOf a = rankOf b - fileOf b

instance (a b : Int) : Decidable (OnCommonLine a b) := by unfold OnCommonLine; infer_instance

/-- Distance between two squares of a common line: the larger of the rank
distance and the file distance. -/
def lineDistance (a b : Int) : Int :=
  max (max (rankOf a - rankOf b) (rankOf b - rankOf a))
    (max (fileOf a - fileOf b) (fileOf b - fileOf a))

/-- A knight jump: two squares along one axis and one square along the other. -/
def IsKnightJump (a b : Int) : Prop :=
  ((rankOf a - rankOf b = 2 ∨ rankOf b - rankOf a = 2) ∧
      (fileOf a - fileOf b = 1 ∨ fileOf b - fileOf a = 1)) ∨
    ((fileOf a - fileOf b = 2 ∨ fileOf b - fileOf a = 2) ∧
      (rankOf a - rankOf b = 1 ∨ rankOf b - rankOf a = 1))

instance (a b : Int) : Decidable (IsKnightJump a b) := by unfold IsKnightJump; infer_instance

/-- The branches of `moveToLayer` as a function of the two files and ranks,
with the offset constants evaluated (-1, 6, 13, 20, 27, 34, 41, 48). It is
proved equal to `moveToLayer` on squares in `moveToLayer_eq_planeOf`. -/
def planeOf (fromFile fromRank toFile toRank : Int) : Int :=
  if fromFile = toFile then
    (if fromRank > toRank then fromRank - toRank + (-1) else toRank - fromRank + 6)
  else if fromRank = toRank then
    (if fromFile > toFile then fromFile - toFile + 13 else toFile - fromFile + 20)
  else if fromRank + fromFile = toRank + toFile then
    (if fromFile > toFile then fromFile - toFile + 27 else toFile - fromFile + 34)
  else if fromRank - fromFile = toRank - toFile then
    (if fromFile > toFile then fromFile - toFile + 41 else toFile - fromFile + 48)
  else if fromRank - toRank > 1 then
    56 + (if fromFile > toFile then 1 else 0)
  else if toRank - fromRank > 1 then
    58 + (if fromFile > toFile then 1 else 0)
  else if toFile - fromFile > 1 then
    60 + (if fromRank > toRank then 1 else 0)
  else if fromFile - toFile > 1 then
    62 + (if fromRank > toRank then 1 else 0)
  else 0

/-! ## Specification-side definitions -/

/-- The accumulator entry computed from a signature alone: the bias plus, for
every piece type from pawn to queen, count times weight, as an `int16_t`. -/
def accFromScratch (W : Weights) (key : OWNKey) (c : Color) (i : Nat) : Int :=
  toInt16 (W.l0biases i +
    ([PAWN, KNIGHT, BISHOP, ROOK, QUEEN].map
      (fun pt => key.count c pt * W.l0Weights ((pt - 1) * HIDDEN_SIZE + i))).sum)

/-- The net after a sequence of `updateAccumulator(newKey)` calls. -/
def runUpdates (W : Weights) (net : OutputWeightNet) (keys : List OWNKey) : OutputWeightNet :=
  keys.foldl (updateAccumulator W) net

/-- The accumulators hold what the tracked signature gives from scratch. -/
def AccInvariant (W : Weights) (net : OutputWeightNet) : Prop :=
  ∀ c i, i < HIDDEN_SIZE → net.accumulator c i = accFromScratch W net.accInputKey c i

/-- One `getWeights` call: its arguments and the stack content it meets. -/
structure Call where
  key : OWNKey
  stm : Color
  stack : Nat → Int

/-- The net after a sequence of `getWeights` calls. -/
def runCalls (W : Weights) (net : OutputWeightNet) (calls : List Call) : OutputWeightNet :=
  calls.foldl (fun n call => (getWeights W n call.key call.stm call.stack).2) net

/-! ## Concrete inputs -/

/-- Weights inside the tuning ranges of evaluate.cpp: the pawn row of
`l0Weights` is 7, the `l1Weights` read through the white index for output 0
are 4, everything else is 0. -/
def exampleWeights : Weights :=
  { l0Weights := fun k => if k < 64 then 7 else 0
    l1Weights := fun k => if k < 64 then 4 else 0
    l0biases := fun _ => 0
    l1biases := fun _ => 0 }

/-- Storage with zeroed accumulators and every cache slot unset. -/
def unsetStorage : OutputWeightNet :=
  { accumulator := fun _ _ => 0
    accInputKey := OWNKey.zero
    cache := fun _ => none }

/-- The signature with one pawn of colour `c` and no other piece counted. -/
def onePawn (c : Color) : OWNKey :=
  ⟨fun c' pt => if c' = c ∧ pt = PAWN then 1 else 0⟩

/-- A stack holding zeroes. -/
def zeroStack : Nat → Int := fun _ => 0

/-- A freshly constructed net whose cache is entirely unset. -/
def freshNet : OutputWeightNet := OutputWeightNet.construct exampleWeights unsetStorage

/-- The net after `getWeights` for one white pawn with white to move. -/
def afterFirstCall : OutputWeightNet :=
  (getWeights exampleWeights freshNet (onePawn WHITE) WHITE zeroStack).2


/-! ## Further definitions for the forward pass (src/evaluate.cpp) -/

/-- The index `index` with which `forward` reads `l1Weights` for the white
accumulator: `i * HIDDEN_SIZE + j`. -/
def l1IndexWhite (i j : Nat) : Nat := i * HIDDEN_SIZE + j

/-- The index `index + OUTPUT_SIZE * HIDDEN_SIZE` with which `forward` reads
`l1Weights` for the black accumulator. -/
def l1IndexBlack (i j : Nat) : Nat := i * HIDDEN_SIZE + j + OUTPUT_SIZE * HIDDEN_SIZE

/-- The member `max` of `OutputWeightNet`, an array of `PIECE_TYPE_NB` = 8
entries initialised with 0, 8, 2, 2, 2, 1 (the rest zero). -/
def OutputWeightNet.max (pt : PieceType) : Int := [0, 8, 2, 2, 2, 1, 0, 0].getD pt 0

/-- Storage in which the cache slot of key pair (0, 0) holds a stale pointer,
here to a buffer reading 42 in each of its 32 entries. -/
def staleStorage : OutputWeightNet :=
  { accumulator := fun _ _ => 0
    accInputKey := OWNKey.zero
    cache := fun s => if s = 0 then some (List.replicate 32 42) else none }

/-! ## scoreMoveList (src/policy/policyNet.h) -/

/-- Modelled from the spec: the candidate move `rm.pv[0]` of a root move
(search.h and types.h are absent), by its origin and destination squares, each
in 0..63. -/
structure RootMove where
  from_sq : Nat
  to_sq : Nat

/-- The indices `layer`, `fromRank + 1`, `fromFile + 1` of the cell of `out`
that the first loop of `scoreMoveList` reads for the root move `rm`. -/
def logitCell (stm : Bool) (rm : RootMove) : Int × Int × Int :=
  let from0 : Int := Int.xor (rm.from_sq : Int) 7
  let to0 : Int := Int.xor (rm.to_sq : Int) 7
  let from1 : Int := if !stm then Int.xor from0 56 else from0
  let to1 : Int := if !stm then Int.xor to0 56 else to0
  let layer := moveToLayer from1 to1
  let fromFile := fileOf from1
  let fromRank := rankOf from1
  (layer, fromRank + 1, fromFile + 1)

/-- The `float` operations of `scoreMoveList`, kept abstract: the constant
`0.0f`, addition, `std::exp`, division, multiplication by `16384.0f` and the
conversion to `int` of the assignment into `policies`. -/
structure FloatOps (F : Type) where
  zero : F
  add : F → F → F
  exp : F → F
  div : F → F → F
  scale : F → F
  toInt : F → Int

/-- The array `scores` after the first loop of `scoreMoveList`:
`scores[i] = std::exp(out[layer][fromRank + 1][fromFile + 1])`. -/
def scoreList {F : Type} (ops : FloatOps F) (out : Int → Int → Int → F) (ml : List RootMove)
    (stm : Bool) : List F :=
  ml.map (fun rm => ops.exp (out (logitCell stm rm).1 (logitCell stm rm).2.1 (logitCell stm rm).2.2))

/-- The variable `sum` after the first loop: the scores added up from `0.0f`. -/
def scoreSum {F : Type} (ops : FloatOps F) (scores : List F) : F :=
  scores.foldl ops.add ops.zero

/-- The assignments of the second loop of `scoreMoveList`, in order: for each
move the row, the column and the value `(scores[i] / sum) * 16384.0f` stored in
`policies`. Each assignment performs one division by `sum`. -/
def policyWrites {F : Type} (ops : FloatOps F) (out : Int → Int → Int → F) (ml : List RootMove)
    (stm : Bool) : List (Nat × Nat × Int) :=
  (ml.zip (scoreList ops out ml stm)).map
    (fun p => (p.1.from_sq, p.1.to_sq,
      ops.toInt (ops.scale (ops.div p.2 (scoreSum ops (scoreList ops out ml stm))))))

/-- The assignment `policies[a][b] = v`. -/
def setPolicy (policies : Nat → Nat → Int) (a b : Nat) (v : Int) : Nat → Nat → Int :=
  fun a' b' => if a' = a ∧ b' = b then v else policies a' b'

/-- The function `scoreMoveList`, given the tensor `out` that `forward(input)`
returned: the table `policies` after the call. -/
def scoreMoveList {F : Type} (ops : FloatOps F) (out : Int → Int → Int → F)
    (ml : List RootMove) (policies : Nat → Nat → Int) (stm : Bool) : Nat → Nat → Int :=
  (policyWrites ops out ml stm).foldl (fun pol w => setPolicy pol w.1 w.2.1 w.2.2) policies

/-! ## bbsToPaddedInput (src/policy/policyNet.cpp) -/

/-- Modelled from the spec: `pop_lsb` of bitboard.h (absent) removes and returns
the lowest set square of a 64-bit board, so the loop `while (pieceBB)` visits
the set squares of the board in ascending order. -/
def setSquares (bb : Nat) : List Nat := (List.range 64).filter (fun s => bb.testBit s)

/-- The indices `piece`, `rank + 1`, `file + 1` of the cell that the loop body
of `bbsToPaddedInput` writes for board index `pc` and popped square `sq`. -/
def paddedCell (stm : Bool) (pc : Nat) (sq : Nat) : Int × Int × Int :=
  let square0 : Int := Int.xor (sq : Int) 7
  let piece0 : Int := pc
  let square : Int := if !stm then Int.xor square0 56 else square0
  let piece : Int := if !stm then piece0 - (if piece0 > 5 then 6 else -6) else piece0
  let rank := Int.tdiv square 8
  let file := Int.tmod square 8
  (piece, rank + 1, file + 1)

/-- The assignment `input[p][r][c] = v`. -/
def setInput (input : Int → Int → Int → Nat) (cell : Int × Int × Int) (v : Nat) :
    Int → Int → Int → Nat :=
  fun p r c => if (p, r, c) = cell then v else input p r c

/-- The function `bbsToPaddedInput`: the content of `input` when it returns,
1 for `1.0f` and 0 for the zero bytes `memset` wrote. -/
def bbsToPaddedInput (bitboards : Nat → Nat) (stm : Bool) : Int → Int → Int → Nat :=
  (List.range 13).foldl
    (fun input pc =>
      (setSquares (bitboards pc)).foldl (fun inp sq => setInput inp (paddedCell stm pc sq) 1) input)
    (fun _ _ _ => 0)

/-- The cells `bbsToPaddedInput` writes, in the order of the writes. -/
def writtenCells (bitboards : Nat → Nat) (stm : Bool) : List (Int × Int × Int) :=
  (List.range 13).flatMap (fun pc => (setSquares (bitboards pc)).map (paddedCell stm pc))

/-! ## Further specification-side definitions -/

/-- A square oriented to the side to move: file mirrored by XOR 7, and rank
mirrored by XOR 56 as well when `stm` is false. -/
def orientSquare (stm : Bool) (sq : Nat) : Int :=
  if stm then ((sq ^^^ 7 : Nat) : Int) else (((sq ^^^ 7) ^^^ 56 : Nat) : Int)

/-- A piece index oriented to the side to move: shifted by 6 (to the other
colour) when `stm` is false. -/
def orientPiece (stm : Bool) (q : Nat) : Int :=
  if stm then (q : Int) else if q < 6 then (q : Int) + 6 else (q : Int) - 6

/-- The pair of squares has the shape of a queen move or of a knight jump. -/
def IsMoveShape (a b : Int) : Prop := (a ≠ b ∧ OnCommonLine a b) ∨ IsKnightJump a b

instance (a b : Int) : Decidable (IsMoveShape a b) := by unfold IsMoveShape; infer_instance

/-- A displacement (rank, file) of a queen move or of a knight jump. -/
def IsShapeDisp (dr df : Int) : Prop :=
  ((dr ≠ 0 ∨ df ≠ 0) ∧ (df = 0 ∨ dr = 0 ∨ dr + df = 0 ∨ dr = df)) ∨
    ((dr = 2 ∨ dr = -2) ∧ (df = 1 ∨ df = -1)) ∨ ((df = 2 ∨ df = -2) ∧ (dr = 1 ∨ dr = -1))

instance (dr df : Int) : Decidable (IsShapeDisp dr df) := by unfold IsShapeDisp; infer_instance

/-- The plane as a function of the rank displacement `dr` and the file
displacement `df` (destination minus origin), following the branches of
`planeOf`. -/
def planeOfDisp (dr df : Int) : Int := planeOf 0 0 df dr

/-- The displacement (rank, file) that belongs to a plane in 0..63. -/
def dispOfPlane (p : Int) : Int × Int :=
  if p < 7 then (-(p + 1), 0)
  else if p < 14 then (p - 6, 0)
  else if p < 21 then (0, -(p - 13))
  else if p < 28 then (0, p - 20)
  else if p < 35 then (p - 27, -(p - 27))
  else if p < 42 then (-(p - 34), p - 34)
  else if p < 49 then (-(p - 41), -(p - 41))
  else if p < 56 then (p - 48, p - 48)
  else if p = 56 then (-2, 1)
  else if p = 57 then (-2, -1)
  else if p = 58 then (2, 1)
  else if p = 59 then (2, -1)
  else if p = 60 then (1, 2)
  else if p = 61 then (-1, 2)
  else if p = 62 then (1, -2)
  else (-1, -2)

/-- An origin square from which the displacement of plane `p` stays on the board. -/
def planeOrigin (p : Int) : Int :=
  8 * (if (dispOfPlane p).1 < 0 then 7 else 0) + (if (dispOfPlane p).2 < 0 then 7 else 0)

/-- The destination square reached from `planeOrigin p` by the displacement of plane `p`. -/
def planeDestination (p : Int) : Int :=
  planeOrigin p + 8 * (dispOfPlane p).1 + (dispOfPlane p).2

/-! ## Lemmas on the machine integers and the accumulator loops -/

theorem toInt16_add_left (a b : Int) : toInt16 (toInt16 a + b) = toInt16 (a + b) := by
  unfold toInt16
  omega

theorem toInt16_idem (a : Int) : toInt16 (toInt16 a) = toInt16 a := by
  unfold toInt16
  omega

theorem foldl_setAcc (f : Nat → Int → Int) (c : Color) (n : Nat) (acc : Color → Nat → Int)
    (c' : Color) (i : Nat) :
    ((List.range n).foldl (fun a k => setAcc a c k (f k (a c k))) acc) c' i
      = if c' = c ∧ i < n then f i (acc c' i) else acc c' i := by
  induction n generalizing c' i with
  | zero => simp
  | succ n ih =>
    rw [List.range_succ, List.foldl_append]
    simp only [List.foldl_cons, List.foldl_nil, setAcc]
    by_cases hc : c' = c
    · subst hc
      by_cases hi : i = n
      · subst hi
        simp [ih]
      · have hlt : (i < n + 1) ↔ (i < n) := by omega
        simp [hi, ih, hlt]
    · simp [hc, ih]

theorem updateAccumulatorRow_apply (W : Weights) (acc : Color → Nat → Int) (c : Color)
    (index : Nat) (difference : Int) (c' : Color) (i : Nat)
    (hacc : toInt16 (acc c' i) = acc c' i) :
    updateAccumulatorRow W acc c index difference c' i
      = if c' = c ∧ i < HIDDEN_SIZE then
          toInt16 (acc c' i + difference * W.l0Weights (index * HIDDEN_SIZE + i))
        else acc c' i := by
  unfold updateAccumulatorRow
  by_cases hd : difference = 0
  · simp only [hd, if_true, zero_mul, add_zero, hacc, ite_self]
  · rw [if_neg hd]
    exact foldl_setAcc (fun k x => toInt16 (x + difference * W.l0Weights (index * HIDDEN_SIZE + k)))
      c HIDDEN_SIZE acc c' i

theorem accFromScratch_wrapped (W : Weights) (key : OWNKey) (c : Color) (i : Nat) :
    toInt16 (accFromScratch W key c i) = accFromScratch W key c i := by
  unfold accFromScratch
  exact toInt16_idem _

theorem accFromScratch_addCount (W : Weights) (key : OWNKey) (c : Color) (pt : PieceType)
    (d : Int) (i : Nat) (hpt : pt ∈ [PAWN, KNIGHT, BISHOP, ROOK, QUEEN]) :
    accFromScratch W (key.addCount c pt d) c i
      = toInt16 (accFromScratch W key c i + d * W.l0Weights ((pt - 1) * HIDDEN_SIZE + i)) := by
  unfold accFromScratch
  rw [toInt16_add_left]
  congr 1
  simp only [List.mem_cons, List.mem_singleton, List.not_mem_nil, or_false] at hpt
  rcases hpt with h | h | h | h | h <;> subst h <;>
    simp [OWNKey.addCount, OWNKey.count, PAWN, KNIGHT, BISHOP, ROOK, QUEEN] <;> ring

theorem accFromScratch_addCount_other (W : Weights) (key : OWNKey) (c c' : Color)
    (pt : PieceType) (d : Int) (i : Nat) (hc : c' ≠ c) :
    accFromScratch W (key.addCount c pt d) c' i = accFromScratch W key c' i := by
  simp [accFromScratch, OWNKey.addCount, OWNKey.count, hc]

theorem updateAccumulatorStep_invariant (W : Weights) (newKey : OWNKey) (c : Color)
    (net : OutputWeightNet) (pt : PieceType) (hpt : pt ∈ [PAWN, KNIGHT, BISHOP, ROOK, QUEEN])
    (h : AccInvariant W net) : AccInvariant W (updateAccumulatorStep W newKey c net pt) := by
  intro c' i hi
  show updateAccumulatorRow W net.accumulator c (pt - 1) _ c' i
    = accFromScratch W (net.accInputKey.addCount c pt _) c' i
  have hw : toInt16 (net.accumulator c' i) = net.accumulator c' i := by
    rw [h c' i hi]; exact accFromScratch_wrapped W _ c' i
  rw [updateAccumulatorRow_apply W _ c _ _ c' i hw, h c' i hi]
  by_cases hc : c' = c
  · subst hc
    rw [accFromScratch_addCount W _ c' pt _ i hpt]
    simp [hi]
  · rw [accFromScratch_addCount_other W _ c c' pt _ i hc]
    simp [hc]

theorem updateAccumulatorStep_count (W : Weights) (newKey : OWNKey) (c : Color)
    (net : OutputWeightNet) (pt : PieceType) (c' : Color) (pt' : PieceType) :
    (updateAccumulatorStep W newKey c net pt).accInputKey.pieceCount c' pt'
      = if c' = c ∧ pt' = pt then newKey.pieceCount c pt else net.accInputKey.pieceCount c' pt' := by
  show (net.accInputKey.addCount c pt _).pieceCount c' pt' = _
  unfold OWNKey.addCount OWNKey.count
  by_cases h : c' = c ∧ pt' = pt
  · obtain ⟨h1, h2⟩ := h
    subst h1 h2
    simp
  · simp [h]

theorem updateAccumulator_invariant (W : Weights) (net : OutputWeightNet) (newKey : OWNKey)
    (h : AccInvariant W net) : AccInvariant W (updateAccumulator W net newKey) := by
  unfold updateAccumulator
  simp only [List.foldl_cons, List.foldl_nil]
  repeat apply updateAccumulatorStep_invariant _ _ _ _ _ (by simp)
  exact h

theorem updateAccumulator_count (W : Weights) (net : OutputWeightNet) (newKey : OWNKey)
    (c : Color) (pt : PieceType) (hpt : pt ∈ [PAWN, KNIGHT, BISHOP, ROOK, QUEEN]) :
    (updateAccumulator W net newKey).accInputKey.count c pt = newKey.count c pt := by
  unfold updateAccumulator OWNKey.count
  simp only [List.foldl_cons, List.foldl_nil, updateAccumulatorStep_count]
  simp only [List.mem_cons, List.mem_singleton, List.not_mem_nil, or_false] at hpt
  cases c <;> rcases hpt with h | h | h | h | h <;> subst h <;>
    simp [PAWN, KNIGHT, BISHOP, ROOK, QUEEN]

theorem construct_accumulator (W : Weights) (raw : OutputWeightNet) (c : Color) (i : Nat)
    (hi : i < HIDDEN_SIZE) :
    (OutputWeightNet.construct W raw).accumulator c i = toInt16 (W.l0biases i) := by
  have key : ∀ n (acc : Color → Nat → Int) (c : Color) (i : Nat),
      ((List.range n).foldl
        (fun a k => setAcc (setAcc a BLACK k (toInt16 (W.l0biases k))) WHITE k
          (toInt16 (W.l0biases k))) acc) c i
        = if i < n then toInt16 (W.l0biases i) else acc c i := by
    intro n
    induction n with
    | zero => simp
    | succ n ih =>
      intro acc c i
      rw [List.range_succ, List.foldl_append]
      simp only [List.foldl_cons, List.foldl_nil, setAcc, ih]
      by_cases hi : i = n
      · subst hi
        cases c <;> simp
      · have hlt : (i < n + 1) ↔ (i < n) := by omega
        simp [hi, hlt]
  have hk := key HIDDEN_SIZE raw.accumulator c i
  rw [if_pos hi] at hk
  exact hk

theorem construct_invariant (W : Weights) (raw : OutputWeightNet) :
    AccInvariant W (OutputWeightNet.construct W raw) := by
  intro c i hi
  rw [construct_accumulator W raw c i hi]
  simp [accFromScratch, OutputWeightNet.construct, OWNKey.zero, OWNKey.count]

theorem runUpdates_invariant (W : Weights) (keys : List OWNKey) (net : OutputWeightNet)
    (h : AccInvariant W net) : AccInvariant W (runUpdates W net keys) := by
  induction keys generalizing net with
  | nil => exact h
  | cons k ks ih => exact ih _ (updateAccumulator_invariant W net k h)

theorem accFromScratch_congr (W : Weights) (k1 k2 : OWNKey) (c : Color) (i : Nat)
    (h : ∀ pt, pt ∈ [PAWN, KNIGHT, BISHOP, ROOK, QUEEN] → k1.count c pt = k2.count c pt) :
    accFromScratch W k1 c i = accFromScratch W k2 c i := by
  unfold accFromScratch
  simp [h]

/-! ## Lemmas on the cache -/

theorem capCount_le (m : Nat) (x : Int) : capCount m x ≤ m := by
  unfold capCount
  omega

theorem key_lt_keyCombinations (k : OWNKey) (c : Color) : k.key c < keyCombinations := by
  have h1 := capCount_le 8 (k.count c PAWN)
  have h2 := capCount_le 2 (k.count c KNIGHT)
  have h3 := capCount_le 2 (k.count c BISHOP)
  have h4 := capCount_le 2 (k.count c ROOK)
  have h5 := capCount_le 1 (k.count c QUEEN)
  unfold OWNKey.key keyCombinations
  omega

theorem cacheIndex_injective {a b a' b' : Nat} (hb : b < keyCombinations)
    (hb' : b' < keyCombinations) (h : cacheIndex a b = cacheIndex a' b') : a = a' ∧ b = b' := by
  unfold cacheIndex keyCombinations at *
  omega

theorem updateAccumulator_cache (W : Weights) (net : OutputWeightNet) (key : OWNKey) :
    (updateAccumulator W net key).cache = net.cache := by
  simp [updateAccumulator, updateAccumulatorStep]

theorem getWeights_of_some (W : Weights) (net : OutputWeightNet) (key : OWNKey)
    (stm : Color) (stack : Nat → Int) (v : List Int)
    (h : net.cache (cacheIndex (key.key stm) (key.key stm.opp)) = some v) :
    getWeights W net key stm stack = (v, net) := by
  unfold getWeights
  simp only [h]

theorem getWeights_of_none (W : Weights) (net : OutputWeightNet) (key : OWNKey)
    (stm : Color) (stack : Nat → Int)
    (h : net.cache (cacheIndex (key.key stm) (key.key stm.opp)) = none) :
    getWeights W net key stm stack
      = (forward W (updateAccumulator W net key).accumulator stack,
          { updateAccumulator W net key with
            cache := setCache (updateAccumulator W net key).cache
              (cacheIndex (key.key stm) (key.key stm.opp))
              (some (forward W (updateAccumulator W net key).accumulator stack)) }) := by
  unfold getWeights
  simp only [h]

theorem getWeights_cache_other (W : Weights) (net : OutputWeightNet) (key : OWNKey)
    (stm : Color) (stack : Nat → Int) (s : Nat)
    (hs : s ≠ cacheIndex (key.key stm) (key.key stm.opp)) :
    (getWeights W net key stm stack).2.cache s = net.cache s := by
  cases hslot : net.cache (cacheIndex (key.key stm) (key.key stm.opp)) with
  | some v => rw [getWeights_of_some W net key stm stack v hslot]
  | none =>
    rw [getWeights_of_none W net key stm stack hslot]
    simp [setCache, hs, updateAccumulator_cache]

theorem getWeights_cache_keeps (W : Weights) (net : OutputWeightNet) (key : OWNKey)
    (stm : Color) (stack : Nat → Int) (s : Nat) (v : List Int) (h : net.cache s = some v) :
    (getWeights W net key stm stack).2.cache s = some v := by
  by_cases hs : s = cacheIndex (key.key stm) (key.key stm.opp)
  · subst hs
    rw [getWeights_of_some W net key stm stack v h]
    exact h
  · rw [getWeights_cache_other W net key stm stack s hs, h]

theorem getWeights_fills_slot (W : Weights) (net : OutputWeightNet) (key : OWNKey)
    (stm : Color) (stack : Nat → Int) :
    (getWeights W net key stm stack).2.cache (cacheIndex (key.key stm) (key.key stm.opp))
      = some (getWeights W net key stm stack).1 := by
  cases hslot : net.cache (cacheIndex (key.key stm) (key.key stm.opp)) with
  | some v =>
    rw [getWeights_of_some W net key stm stack v hslot]
    exact hslot
  | none =>
    rw [getWeights_of_none W net key stm stack hslot]
    simp [setCache]

theorem runCalls_cache_keeps (W : Weights) (calls : List Call) (net : OutputWeightNet) (s : Nat)
    (v : List Int) (h : net.cache s = some v) : (runCalls W net calls).cache s = some v := by
  induction calls generalizing net with
  | nil => exact h
  | cons call rest ih =>
    exact ih _ (getWeights_cache_keeps W net call.key call.stm call.stack s v h)

/-- The value of `entry[i]` for `i < 16` does not depend on the stack. -/
theorem forwardEntry_low_index (W : Weights) (acc : Color → Nat → Int) (s1 s2 : Nat → Int)
    (i : Nat) (hi : i < 16) : forwardEntry W acc s1 i = forwardEntry W acc s2 i := by
  have h : ∀ s, outAfterMemset s i = 0 := by
    intro s
    unfold outAfterMemset OUTPUT_SIZE
    rw [if_pos (by omega)]
  unfold forwardEntry forwardOut
  rw [h s1, h s2]

theorem forwardEntry_congr (W : Weights) (acc acc' : Color → Nat → Int) (stack : Nat → Int)
    (i : Nat) (h : ∀ c j, j < HIDDEN_SIZE → acc c j = acc' c j) :
    forwardEntry W acc stack i = forwardEntry W acc' stack i := by
  have hfold : forwardOut W acc stack i = forwardOut W acc' stack i := by
    unfold forwardOut
    apply List.foldl_ext
    intro o j hj
    have hj' := List.mem_range.1 hj
    simp only [h WHITE j hj', h BLACK j hj']
  unfold forwardEntry
  rw [hfold]

theorem forward_congr (W : Weights) (acc acc' : Color → Nat → Int) (stack : Nat → Int)
    (h : ∀ c j, j < HIDDEN_SIZE → acc c j = acc' c j) :
    forward W acc stack = forward W acc' stack := by
  unfold forward
  apply List.map_congr_left
  intro i _
  exact forwardEntry_congr W acc acc' stack i h

theorem forward_head (W : Weights) (acc : Color → Nat → Int) (stack : Nat → Int) :
    (forward W acc stack).head? = some (forwardEntry W acc stack 0) :=
  rfl

theorem updateAccumulator_construct (W : Weights) (raw : OutputWeightNet) (key : OWNKey)
    (c : Color) (i : Nat) (hi : i < HIDDEN_SIZE) :
    (updateAccumulator W (OutputWeightNet.construct W raw) key).accumulator c i
      = accFromScratch W key c i := by
  rw [updateAccumulator_invariant W _ key (construct_invariant W raw) c i hi]
  apply accFromScratch_congr
  intro q hq
  exact updateAccumulator_count W _ key c q hq

theorem getWeights_construct_miss (W : Weights) (raw : OutputWeightNet) (key : OWNKey)
    (stm : Color) (stack : Nat → Int)
    (h : raw.cache (cacheIndex (key.key stm) (key.key stm.opp)) = none) :
    (getWeights W (OutputWeightNet.construct W raw) key stm stack).1
      = forward W (accFromScratch W key) stack := by
  have hc : (OutputWeightNet.construct W raw).cache (cacheIndex (key.key stm) (key.key stm.opp))
      = none := h
  rw [getWeights_of_none W _ key stm stack hc]
  exact forward_congr W _ _ stack (fun c j hj => updateAccumulator_construct W raw key c j hj)

set_option maxRecDepth 100000 in
theorem forwardEntry_onePawn_white :
    forwardEntry exampleWeights (accFromScratch exampleWeights (onePawn WHITE)) zeroStack 0 = 7 := by
  decide

set_option maxRecDepth 100000 in
theorem forwardEntry_onePawn_black :
    forwardEntry exampleWeights (accFromScratch exampleWeights (onePawn BLACK)) zeroStack 0 = 0 := by
  decide

set_option maxRecDepth 100000 in
theorem forwardEntry_no_piece :
    forwardEntry exampleWeights (accFromScratch exampleWeights OWNKey.zero) zeroStack 0 = 0 := by
  decide

theorem onePawn_slot_eq :
    cacheIndex ((onePawn BLACK).key BLACK) ((onePawn BLACK).key BLACK.opp)
      = cacheIndex ((onePawn WHITE).key WHITE) ((onePawn WHITE).key WHITE.opp) := by
  decide

theorem afterFirstCall_slot :
    afterFirstCall.cache (cacheIndex ((onePawn BLACK).key BLACK) ((onePawn BLACK).key BLACK.opp))
      = some (getWeights exampleWeights freshNet (onePawn WHITE) WHITE zeroStack).1 := by
  rw [onePawn_slot_eq]
  exact getWeights_fills_slot exampleWeights freshNet (onePawn WHITE) WHITE zeroStack

theorem freshNet_first_call :
    (getWeights exampleWeights freshNet (onePawn WHITE) WHITE zeroStack).1
      = forward exampleWeights (accFromScratch exampleWeights (onePawn WHITE)) zeroStack :=
  getWeights_construct_miss exampleWeights unsetStorage (onePawn WHITE) WHITE zeroStack rfl

theorem freshNet_black_call :
    (getWeights exampleWeights freshNet (onePawn BLACK) BLACK zeroStack).1
      = forward exampleWeights (accFromScratch exampleWeights (onePawn BLACK)) zeroStack :=
  getWeights_construct_miss exampleWeights unsetStorage (onePawn BLACK) BLACK zeroStack rfl

theorem staleStorage_slot :
    (OutputWeightNet.construct exampleWeights staleStorage).cache
        (cacheIndex (OWNKey.zero.key WHITE) (OWNKey.zero.key WHITE.opp))
      = some (List.replicate 32 42) := by
  decide

/-! ## Lemmas on the move planes -/

theorem land_seven_of_isSquare {sq : Int} (h : IsSquare sq) : Int.land sq 7 = fileOf sq := by
  obtain ⟨h0, h1⟩ := h
  unfold fileOf
  interval_cases sq <;> rfl

theorem land_shift_of_isSquare {sq : Int} (h : IsSquare sq) :
    (Int.land sq 56) >>> 3 = rankOf sq := by
  obtain ⟨h0, h1⟩ := h
  unfold rankOf
  interval_cases sq <;> rfl

theorem moveToLayer_eq_planeOf {fromSq toSq : Int} (hf : IsSquare fromSq) (ht : IsSquare toSq) :
    moveToLayer fromSq toSq
      = planeOf (fileOf fromSq) (rankOf fromSq) (fileOf toSq) (rankOf toSq) := by
  unfold moveToLayer planeOf
  simp only [land_seven_of_isSquare hf, land_seven_of_isSquare ht, land_shift_of_isSquare hf,
    land_shift_of_isSquare ht]
  rfl

theorem file_rank_bounds {sq : Int} (h : IsSquare sq) :
    0 ≤ fileOf sq ∧ fileOf sq < 8 ∧ 0 ≤ rankOf sq ∧ rankOf sq < 8 := by
  unfold IsSquare at h
  unfold fileOf rankOf
  omega

theorem file_or_rank_ne {a b : Int} (h : a ≠ b) : fileOf a ≠ fileOf b ∨ rankOf a ≠ rankOf b := by
  unfold fileOf rankOf
  omega

theorem planeOf_file_down {ff fr tf tr : Int} (h : ff = tf) (hd : tr < fr) :
    planeOf ff fr tf tr = 0 + (fr - tr - 1) := by
  unfold planeOf
  split_ifs
  omega

theorem planeOf_file_up {ff fr tf tr : Int} (h : ff = tf) (hd : fr < tr) :
    planeOf ff fr tf tr = 7 + (tr - fr - 1) := by
  unfold planeOf
  split_ifs <;> omega

theorem planeOf_rank_down {ff fr tf tr : Int} (h : fr = tr) (hd : tf < ff) :
    planeOf ff fr tf tr = 14 + (ff - tf - 1) := by
  unfold planeOf
  split_ifs <;> omega

theorem planeOf_rank_up {ff fr tf tr : Int} (h : fr = tr) (hd : ff < tf) :
    planeOf ff fr tf tr = 21 + (tf - ff - 1) := by
  unfold planeOf
  split_ifs <;> omega

theorem planeOf_anti_down {ff fr tf tr : Int} (h : fr + ff = tr + tf) (hd : tf < ff) :
    planeOf ff fr tf tr = 28 + (ff - tf - 1) := by
  unfold planeOf
  split_ifs <;> omega

theorem planeOf_anti_up {ff fr tf tr : Int} (h : fr + ff = tr + tf) (hd : ff < tf) :
    planeOf ff fr tf tr = 35 + (tf - ff - 1) := by
  unfold planeOf
  split_ifs <;> omega

theorem planeOf_diag_down {ff fr tf tr : Int} (h : fr - ff = tr - tf) (hd : tf < ff) :
    planeOf ff fr tf tr = 42 + (ff - tf - 1) := by
  unfold planeOf
  split_ifs <;> omega

theorem planeOf_diag_up {ff fr tf tr : Int} (h : fr - ff = tr - tf) (hd : ff < tf) :
    planeOf ff fr tf tr = 49 + (tf - ff - 1) := by
  unfold planeOf
  split_ifs <;> omega

theorem planeOf_knight_rank_down {ff fr tf tr : Int} (h : fr - tr = 2)
    (h1 : ff - tf = 1 ∨ tf - ff = 1) :
    planeOf ff fr tf tr = 56 + (if tf < ff then 1 else 0) := by
  unfold planeOf
  split_ifs <;> omega

theorem planeOf_knight_rank_up {ff fr tf tr : Int} (h : tr - fr = 2)
    (h1 : ff - tf = 1 ∨ tf - ff = 1) :
    planeOf ff fr tf tr = 58 + (if tf < ff then 1 else 0) := by
  unfold planeOf
  split_ifs <;> omega

theorem planeOf_knight_file_up {ff fr tf tr : Int} (h : tf - ff = 2)
    (h1 : fr - tr = 1 ∨ tr - fr = 1) :
    planeOf ff fr tf tr = 60 + (if tr < fr then 1 else 0) := by
  unfold planeOf
  split_ifs <;> omega

theorem planeOf_knight_file_down {ff fr tf tr : Int} (h : ff - tf = 2)
    (h1 : fr - tr = 1 ∨ tr - fr = 1) :
    planeOf ff fr tf tr = 62 + (if tr < fr then 1 else 0) := by
  unfold planeOf
  split_ifs <;> omega

/-! ## Claims on the accumulator and the cache -/

/-- Claim C1. After any sequence of `updateAccumulator(newKey)` calls on a
freshly constructed net, ending with the signature `last`, each accumulator
entry (both colours, every hidden index below 64) equals the 16-bit wrap-around
value of `l0biases[i]` plus the sum over pawn..queen of
`last.count(c, pt) * l0Weights[(pt - 1) * HIDDEN_SIZE + i]`, and the tracked
signature has the pawn..queen counts of `last`. The list `keys` is arbitrary,
so the statement holds after each call of a sequence. -/
theorem updateAccumulator_matches_scratch (W : Weights) (raw : OutputWeightNet)
    (keys : List OWNKey) (last : OWNKey) (c : Color) (i : Nat) (pt : PieceType)
    (hi : i < HIDDEN_SIZE) (hpt : PAWN ≤ pt ∧ pt ≤ QUEEN) :
    (runUpdates W (OutputWeightNet.construct W raw) (keys ++ [last])).accumulator c i
        = accFromScratch W last c i ∧
    (runUpdates W (OutputWeightNet.construct W raw) (keys ++ [last])).accInputKey.count c pt
        = last.count c pt := by
  have hrun : runUpdates W (OutputWeightNet.construct W raw) (keys ++ [last])
      = updateAccumulator W (runUpdates W (OutputWeightNet.construct W raw) keys) last := by
    simp [runUpdates, List.foldl_append]
  have hinv := runUpdates_invariant W (keys ++ [last]) _ (construct_invariant W raw)
  have hmem : pt ∈ [PAWN, KNIGHT, BISHOP, ROOK, QUEEN] := by
    unfold PAWN QUEEN at hpt
    obtain ⟨h1, h2⟩ := hpt
    interval_cases pt <;> simp [PAWN, KNIGHT, BISHOP, ROOK, QUEEN]
  refine ⟨?_, ?_⟩
  · rw [hinv c i hi]
    apply accFromScratch_congr
    intro q hq
    rw [hrun]
    exact updateAccumulator_count W _ last c q hq
  · rw [hrun]
    exact updateAccumulator_count W _ last c pt hmem

/-- Witness of C1: two updates (one white pawn, then one black pawn) on a
freshly constructed net, read at the black accumulator, hidden index 0. -/
theorem updateAccumulator_matches_scratch_witness :
    (0 < HIDDEN_SIZE ∧ PAWN ≤ PAWN ∧ PAWN ≤ QUEEN) ∧
    (runUpdates exampleWeights (OutputWeightNet.construct exampleWeights unsetStorage)
        ([onePawn WHITE] ++ [onePawn BLACK])).accumulator BLACK 0
        = accFromScratch exampleWeights (onePawn BLACK) BLACK 0 ∧
    (runUpdates exampleWeights (OutputWeightNet.construct exampleWeights unsetStorage)
        ([onePawn WHITE] ++ [onePawn BLACK])).accInputKey.count BLACK PAWN
        = (onePawn BLACK).count BLACK PAWN :=
  ⟨by decide,
    updateAccumulator_matches_scratch exampleWeights unsetStorage [onePawn WHITE] (onePawn BLACK)
      BLACK 0 PAWN (by decide) (by decide)⟩

/-- Claim C2, evaluated where the code departs from it. The cache slot is
addressed by (key of the side to move, key of the other side), the forward
pass reads the white and the black accumulator. After `getWeights` for one
white pawn with white to move, `getWeights` for one black pawn with black to
move hits the same slot and returns the stored vector (first entry 7), while
the forward pass on the accumulators recomputed for that signature gives first
entry 0, as does the same call on a net whose cache is unset. -/
theorem getWeights_hit_swaps_colours :
    (getWeights exampleWeights afterFirstCall (onePawn BLACK) BLACK zeroStack).1
      = (getWeights exampleWeights freshNet (onePawn WHITE) WHITE zeroStack).1 ∧
    (getWeights exampleWeights afterFirstCall (onePawn BLACK) BLACK zeroStack).1.head? = some 7 ∧
    (forward exampleWeights (accFromScratch exampleWeights (onePawn BLACK)) zeroStack).head?
      = some 0 ∧
    (getWeights exampleWeights freshNet (onePawn BLACK) BLACK zeroStack).1.head? = some 0 := by
  have hhit := getWeights_of_some exampleWeights afterFirstCall (onePawn BLACK) BLACK zeroStack _
    afterFirstCall_slot
  refine ⟨?_, ?_, ?_, ?_⟩
  · rw [hhit]
  · rw [hhit]
    show (getWeights exampleWeights freshNet (onePawn WHITE) WHITE zeroStack).1.head? = some 7
    rw [freshNet_first_call, forward_head, forwardEntry_onePawn_white]
  · rw [forward_head, forwardEntry_onePawn_black]
  · rw [freshNet_black_call, forward_head, forwardEntry_onePawn_black]

/-- Claim C3. When the cache slot `[key.key(stm)][key.key(~stm)]` is set,
`getWeights` returns the stored vector and the net after the call is the net
before it: accumulators, tracked signature and every cache slot are unchanged. -/
theorem getWeights_hit_changes_nothing (W : Weights) (net : OutputWeightNet) (key : OWNKey)
    (stm : Color) (stack : Nat → Int) (v : List Int)
    (h : net.cache (cacheIndex (key.key stm) (key.key stm.opp)) = some v) :
    getWeights W net key stm stack = (v, net) :=
  getWeights_of_some W net key stm stack v h

/-- Witness of C3: the slot filled by the call for one white pawn, white to
move, is hit by the call for one black pawn, black to move. -/
theorem getWeights_hit_changes_nothing_witness :
    afterFirstCall.cache (cacheIndex ((onePawn BLACK).key BLACK) ((onePawn BLACK).key BLACK.opp))
      = some (getWeights exampleWeights freshNet (onePawn WHITE) WHITE zeroStack).1 ∧
    getWeights exampleWeights afterFirstCall (onePawn BLACK) BLACK zeroStack
      = ((getWeights exampleWeights freshNet (onePawn WHITE) WHITE zeroStack).1, afterFirstCall) :=
  ⟨afterFirstCall_slot,
    getWeights_hit_changes_nothing exampleWeights afterFirstCall (onePawn BLACK) BLACK zeroStack
      (getWeights exampleWeights freshNet (onePawn WHITE) WHITE zeroStack).1 afterFirstCall_slot⟩

/-- Claim C4. Once a `getWeights` call (on `net0`, with `key0`, `stm0`) has
left its cache slot holding the vector it returned, then after every sequence
of further calls the slot still holds that vector, every later call with the
same key pair returns that vector, and a call with a different key pair, on
any net, leaves the slot as it was. -/
theorem getWeights_slot_stable (W : Weights) (net0 : OutputWeightNet) (key0 : OWNKey)
    (stm0 : Color) (stack0 : Nat → Int) (calls : List Call) :
    (runCalls W (getWeights W net0 key0 stm0 stack0).2 calls).cache
        (cacheIndex (key0.key stm0) (key0.key stm0.opp))
      = some (getWeights W net0 key0 stm0 stack0).1 ∧
    (∀ (key : OWNKey) (stm : Color) (stack : Nat → Int),
      key.key stm = key0.key stm0 → key.key stm.opp = key0.key stm0.opp →
      (getWeights W (runCalls W (getWeights W net0 key0 stm0 stack0).2 calls) key stm stack).1
        = (getWeights W net0 key0 stm0 stack0).1) ∧
    (∀ (net : OutputWeightNet) (key : OWNKey) (stm : Color) (stack : Nat → Int),
      (key.key stm ≠ key0.key stm0 ∨ key.key stm.opp ≠ key0.key stm0.opp) →
      (getWeights W net key stm stack).2.cache (cacheIndex (key0.key stm0) (key0.key stm0.opp))
        = net.cache (cacheIndex (key0.key stm0) (key0.key stm0.opp))) := by
  have hkept := runCalls_cache_keeps W calls _ _ _ (getWeights_fills_slot W net0 key0 stm0 stack0)
  refine ⟨hkept, ?_, ?_⟩
  · intro key stm stack h1 h2
    have hslot : (runCalls W (getWeights W net0 key0 stm0 stack0).2 calls).cache
        (cacheIndex (key.key stm) (key.key stm.opp))
          = some (getWeights W net0 key0 stm0 stack0).1 := by
      rw [h1, h2]; exact hkept
    rw [getWeights_of_some W _ key stm stack _ hslot]
  · intro net key stm stack hne
    apply getWeights_cache_other
    intro heq
    have := cacheIndex_injective (key_lt_keyCombinations key0 stm0.opp)
      (key_lt_keyCombinations key stm.opp) heq
    omega

/-- Witness of C4: after the call for one white pawn, white to move, and a
further call for one white pawn with black to move (another key pair), the
call for one black pawn, black to move (the same key pair) returns the vector
of the first call. -/
theorem getWeights_slot_stable_witness :
    ((onePawn BLACK).key BLACK = (onePawn WHITE).key WHITE ∧
      (onePawn BLACK).key BLACK.opp = (onePawn WHITE).key WHITE.opp) ∧
    (getWeights exampleWeights
        (runCalls exampleWeights (getWeights exampleWeights freshNet (onePawn WHITE) WHITE zeroStack).2
          [Call.mk (onePawn WHITE) BLACK zeroStack])
        (onePawn BLACK) BLACK zeroStack).1
      = (getWeights exampleWeights freshNet (onePawn WHITE) WHITE zeroStack).1 :=
  ⟨by decide,
    (getWeights_slot_stable exampleWeights freshNet (onePawn WHITE) WHITE zeroStack
      [Call.mk (onePawn WHITE) BLACK zeroStack]).2.1 (onePawn BLACK) BLACK zeroStack
      (by decide) (by decide)⟩

set_option maxRecDepth 100000 in
/-- Claim C5, evaluated where the code departs from it. `memset` zeroes
`sizeof(int8_t) * OUTPUT_SIZE` = 32 bytes of the `int16_t` array `out`, that
is `out[0..15]`; for output index 16 the running sum starts from what the
stack held. With all accumulators 0 (every product is 0, the bias is 0) the
claim gives `entry[16] = 0`; the code gives 0 when the stack held 0 and 1 when
it held 256, so the value is not determined by accumulators, weights and
biases. -/
theorem forward_high_entry_reads_stack :
    forwardEntry exampleWeights (fun _ _ => 0) (fun _ => 0) 16 = 0 ∧
    forwardEntry exampleWeights (fun _ _ => 0) (fun _ => 256) 16 = 1 := by
  decide

/-! ## Claims on the move planes -/

/-- Claim C6. For all squares `fromSq`, `toSq` in 0..63 with `fromSq ≠ toSq`,
`moveToLayer` returns a plane `p` with `0 ≤ p < 64`; `moveToLayer` is a
function of its two arguments alone. -/
theorem moveToLayer_range (fromSq toSq : Int) (hf : IsSquare fromSq) (ht : IsSquare toSq)
    (_hne : fromSq ≠ toSq) : 0 ≤ moveToLayer fromSq toSq ∧ moveToLayer fromSq toSq < 64 := by
  rw [moveToLayer_eq_planeOf hf ht]
  have hb1 := file_rank_bounds hf
  have hb2 := file_rank_bounds ht
  generalize fileOf fromSq = ff at *
  generalize rankOf fromSq = fr at *
  generalize fileOf toSq = tf at *
  generalize rankOf toSq = tr at *
  unfold planeOf
  split_ifs <;> omega

/-- Witness of C6: the move from square 12 to square 28. -/
theorem moveToLayer_range_witness :
    (IsSquare 12 ∧ IsSquare 28 ∧ (12 : Int) ≠ 28) ∧
    0 ≤ moveToLayer 12 28 ∧ moveToLayer 12 28 < 64 :=
  ⟨by decide, moveToLayer_range 12 28 (by decide) (by decide) (by decide)⟩

/-- Counterexample to C7 as stated: `moveToLayer(0, 0)` is 6, not 0. -/
theorem moveToLayer_same_square_not_zero :
    IsSquare 0 ∧ moveToLayer 0 0 = 6 ∧ moveToLayer 0 0 ≠ 0 := by
  decide

/-- Claim C7, amended. For every square `s` in 0..63, `moveToLayer(s, s)`
returns plane 6: equal files select the vertical branch, whose second arm
gives `toRank - fromRank + V_NEG_OFFSET = 0 + 6`. -/
theorem moveToLayer_same_square (s : Int) (hs : IsSquare s) : moveToLayer s s = 6 := by
  rw [moveToLayer_eq_planeOf hs hs]
  unfold planeOf
  simp

/-- Witness of the amended C7 at square 27. -/
theorem moveToLayer_same_square_witness : IsSquare 27 ∧ moveToLayer 27 27 = 6 :=
  ⟨by decide, moveToLayer_same_square 27 (by decide)⟩

/-- Claim C8. For distinct squares in 0..63 on a common file, rank or
diagonal, the plane of the reversed move differs from the plane of the move. -/
theorem moveToLayer_reverse_ne (fromSq toSq : Int) (hf : IsSquare fromSq) (ht : IsSquare toSq)
    (hne : fromSq ≠ toSq) (hl : OnCommonLine fromSq toSq) :
    moveToLayer toSq fromSq ≠ moveToLayer fromSq toSq := by
  rw [moveToLayer_eq_planeOf hf ht, moveToLayer_eq_planeOf ht hf]
  have hb1 := file_rank_bounds hf
  have hb2 := file_rank_bounds ht
  have hne2 := file_or_rank_ne hne
  unfold OnCommonLine at hl
  generalize fileOf fromSq = ff at *
  generalize rankOf fromSq = fr at *
  generalize fileOf toSq = tf at *
  generalize rankOf toSq = tr at *
  rcases hl with h | h | h | h
  · rcases lt_or_gt_of_ne (show fr ≠ tr by omega) with hd | hd
    · rw [planeOf_file_up h hd, planeOf_file_down h.symm hd]; omega
    · rw [planeOf_file_down h hd, planeOf_file_up h.symm hd]; omega
  · rcases lt_or_gt_of_ne (show ff ≠ tf by omega) with hd | hd
    · rw [planeOf_rank_up h hd, planeOf_rank_down h.symm hd]; omega
    · rw [planeOf_rank_down h hd, planeOf_rank_up h.symm hd]; omega
  · rcases lt_or_gt_of_ne (show ff ≠ tf by omega) with hd | hd
    · rw [planeOf_anti_up h hd, planeOf_anti_down h.symm hd]; omega
    · rw [planeOf_anti_down h hd, planeOf_anti_up h.symm hd]; omega
  · rcases lt_or_gt_of_ne (show ff ≠ tf by omega) with hd | hd
    · rw [planeOf_diag_up h hd, planeOf_diag_down h.symm hd]; omega
    · rw [planeOf_diag_down h hd, planeOf_diag_up h.symm hd]; omega

/-- Witness of C8: the diagonal move from square 0 to square 63 and back. -/
theorem moveToLayer_reverse_ne_witness :
    (IsSquare 0 ∧ IsSquare 63 ∧ (0 : Int) ≠ 63 ∧ OnCommonLine 0 63) ∧
    moveToLayer 63 0 ≠ moveToLayer 0 63 :=
  ⟨by decide, moveToLayer_reverse_ne 0 63 (by decide) (by decide) (by decide) (by decide)⟩

/-- Claim C9. For distinct squares in 0..63 at distance `d` (the larger of the
rank and file distances, so `1 ≤ d ≤ 7`), `moveToLayer` returns
`base + (d - 1)` with base 0 (same file, destination rank lower), 7 (same
file, destination rank higher), 14 (same rank, destination file lower), 21
(same rank, destination file higher), 28 and 35 (equal rank + file, destination
file lower and higher), 42 and 49 (equal rank - file, destination file lower
and higher). With `1 ≤ d ≤ 7` the eight classes fill the disjoint ranges 0..6,
7..13, ..., 49..55 and the index grows with the distance. -/
theorem moveToLayer_line (fromSq toSq : Int) (hf : IsSquare fromSq) (ht : IsSquare toSq)
    (hne : fromSq ≠ toSq) :
    1 ≤ lineDistance fromSq toSq ∧ lineDistance fromSq toSq ≤ 7 ∧
    (fileOf fromSq = fileOf toSq ∧ rankOf toSq < rankOf fromSq →
      moveToLayer fromSq toSq = 0 + (lineDistance fromSq toSq - 1)) ∧
    (fileOf fromSq = fileOf toSq ∧ rankOf fromSq < rankOf toSq →
      moveToLayer fromSq toSq = 7 + (lineDistance fromSq toSq - 1)) ∧
    (rankOf fromSq = rankOf toSq ∧ fileOf toSq < fileOf fromSq →
      moveToLayer fromSq toSq = 14 + (lineDistance fromSq toSq - 1)) ∧
    (rankOf fromSq = rankOf toSq ∧ fileOf fromSq < fileOf toSq →
      moveToLayer fromSq toSq = 21 + (lineDistance fromSq toSq - 1)) ∧
    (rankOf fromSq + fileOf fromSq = rankOf toSq + fileOf toSq ∧ fileOf toSq < fileOf fromSq →
      moveToLayer fromSq toSq = 28 + (lineDistance fromSq toSq - 1)) ∧
    (rankOf fromSq + fileOf fromSq = rankOf toSq + fileOf toSq ∧ fileOf fromSq < fileOf toSq →
      moveToLayer fromSq toSq = 35 + (lineDistance fromSq toSq - 1)) ∧
    (rankOf fromSq - fileOf fromSq = rankOf toSq - fileOf toSq ∧ fileOf toSq < fileOf fromSq →
      moveToLayer fromSq toSq = 42 + (lineDistance fromSq toSq - 1)) ∧
    (rankOf fromSq - fileOf fromSq = rankOf toSq - fileOf toSq ∧ fileOf fromSq < fileOf toSq →
      moveToLayer fromSq toSq = 49 + (lineDistance fromSq toSq - 1)) := by
  rw [moveToLayer_eq_planeOf hf ht]
  have hb1 := file_rank_bounds hf
  have hb2 := file_rank_bounds ht
  have hne2 := file_or_rank_ne hne
  unfold lineDistance
  generalize fileOf fromSq = ff at *
  generalize rankOf fromSq = fr at *
  generalize fileOf toSq = tf at *
  generalize rankOf toSq = tr at *
  refine ⟨by omega, by omega, ?_, ?_, ?_, ?_, ?_, ?_, ?_, ?_⟩
  · rintro ⟨h, hd⟩; rw [planeOf_file_down h hd]; omega
  · rintro ⟨h, hd⟩; rw [planeOf_file_up h hd]; omega
  · rintro ⟨h, hd⟩; rw [planeOf_rank_down h hd]; omega
  · rintro ⟨h, hd⟩; rw [planeOf_rank_up h hd]; omega
  · rintro ⟨h, hd⟩; rw [planeOf_anti_down h hd]; omega
  · rintro ⟨h, hd⟩; rw [planeOf_anti_up h hd]; omega
  · rintro ⟨h, hd⟩; rw [planeOf_diag_down h hd]; omega
  · rintro ⟨h, hd⟩; rw [planeOf_diag_up h hd]; omega

/-- Witness of C9: from square 12 to square 28 (same file, two ranks higher)
the plane is 7 + (2 - 1). -/
theorem moveToLayer_line_witness :
    (IsSquare 12 ∧ IsSquare 28 ∧ (12 : Int) ≠ 28 ∧
      fileOf 12 = fileOf 28 ∧ rankOf 12 < rankOf 28 ∧ lineDistance 12 28 = 2) ∧
    moveToLayer 12 28 = 7 + (lineDistance 12 28 - 1) :=
  ⟨by decide,
    (moveToLayer_line 12 28 (by decide) (by decide) (by decide)).2.2.2.1 ⟨by decide, by decide⟩⟩

/-- Counterexample to C10 as stated: the knight jumps 17 to 0 and 17 to 2 both
travel two ranks down (the same direction on the two-square axis), and their
planes are 56 + 1 and 56 + 0: the sub-index differs. -/
theorem knight_subindex_not_by_long_axis :
    IsSquare 17 ∧ IsSquare 0 ∧ IsSquare 2 ∧ IsKnightJump 17 0 ∧ IsKnightJump 17 2 ∧
    rankOf 17 - rankOf 0 = 2 ∧ rankOf 17 - rankOf 2 = 2 ∧
    moveToLayer 17 0 = 56 + 1 ∧ moveToLayer 17 2 = 56 + 0 := by
  decide

/-- Claim C10, amended. For every knight jump between squares in 0..63 the
direction along the axis with two squares selects the category base (56 two
ranks down, 58 two ranks up, 60 two files up, 62 two files down), and the
sub-index is selected by the direction along the axis with one square: it is 1
when the destination is lower on that axis (file for bases 56 and 58, rank for
bases 60 and 62) and 0 otherwise. -/
theorem moveToLayer_knight (fromSq toSq : Int) (hf : IsSquare fromSq) (ht : IsSquare toSq)
    (hk : IsKnightJump fromSq toSq) :
    (rankOf fromSq - rankOf toSq = 2 →
      moveToLayer fromSq toSq = 56 + (if fileOf toSq < fileOf fromSq then 1 else 0)) ∧
    (rankOf toSq - rankOf fromSq = 2 →
      moveToLayer fromSq toSq = 58 + (if fileOf toSq < fileOf fromSq then 1 else 0)) ∧
    (fileOf toSq - fileOf fromSq = 2 →
      moveToLayer fromSq toSq = 60 + (if rankOf toSq < rankOf fromSq then 1 else 0)) ∧
    (fileOf fromSq - fileOf toSq = 2 →
      moveToLayer fromSq toSq = 62 + (if rankOf toSq < rankOf fromSq then 1 else 0)) := by
  rw [moveToLayer_eq_planeOf hf ht]
  unfold IsKnightJump at hk
  generalize fileOf fromSq = ff at *
  generalize rankOf fromSq = fr at *
  generalize fileOf toSq = tf at *
  generalize rankOf toSq = tr at *
  refine ⟨?_, ?_, ?_, ?_⟩
  · intro h; exact planeOf_knight_rank_down h (by omega)
  · intro h; exact planeOf_knight_rank_up h (by omega)
  · intro h; exact planeOf_knight_file_up h (by omega)
  · intro h; exact planeOf_knight_file_down h (by omega)

/-- Witness of the amended C10: the jump from square 10 to square 4 goes two
files up and one rank down, its plane is 60 + 1. -/
theorem moveToLayer_knight_witness :
    (IsSquare 10 ∧ IsSquare 4 ∧ IsKnightJump 10 4 ∧ fileOf 4 - fileOf 10 = 2) ∧
    moveToLayer 10 4 = 60 + (if rankOf 4 < rankOf 10 then 1 else 0) :=
  ⟨by decide, (moveToLayer_knight 10 4 (by decide) (by decide) (by decide)).2.2.1 (by decide)⟩

/-! ## Lemmas on the forward pass indices and the constructor -/

theorem forwardOut_indices (W : Weights) (acc : Color → Nat → Int) (stack : Nat → Int) (i : Nat) :
    forwardOut W acc stack i
      = (List.range HIDDEN_SIZE).foldl
          (fun o j =>
            toInt16 (toInt16 (o + relu (toInt8 (acc WHITE j)) * W.l1Weights (l1IndexWhite i j))
              + relu (toInt8 (acc BLACK j)) * W.l1Weights (l1IndexBlack i j)))
          (outAfterMemset stack i) :=
  rfl

theorem l1IndexWhite_in_bounds (i j : Nat) (hi : i < OUTPUT_SIZE) (hj : j < HIDDEN_SIZE) :
    l1IndexWhite i j < l1WeightsLength := by
  unfold l1IndexWhite l1WeightsLength OUTPUT_SIZE HIDDEN_SIZE at *
  omega

theorem construct_cache (W : Weights) (raw : OutputWeightNet) :
    (OutputWeightNet.construct W raw).cache = raw.cache :=
  rfl

theorem xor_seven_cast (sq : Nat) : Int.xor (sq : Int) 7 = ((sq ^^^ 7 : Nat) : Int) :=
  rfl

theorem xor_fifty_six_cast (sq : Nat) : Int.xor (sq : Int) 56 = ((sq ^^^ 56 : Nat) : Int) :=
  rfl

/-! ## Lemmas on the accumulator range -/

theorem mul_weight_bound (n w cap : Int) (h0 : 0 ≤ n) (h1 : n ≤ cap) (hw1 : -7 ≤ w)
    (hw2 : w ≤ 7) : -(7 * cap) ≤ n * w ∧ n * w ≤ 7 * cap := by
  constructor <;> nlinarith

theorem accFromScratch_bound (W : Weights) (key : OWNKey) (c : Color) (i : Nat)
    (hi : i < HIDDEN_SIZE)
    (hW : ∀ k, k < INPUT_SIZE * HIDDEN_SIZE → -7 ≤ W.l0Weights k ∧ W.l0Weights k ≤ 7)
    (hb : ∀ k, k < HIDDEN_SIZE → -7 ≤ W.l0biases k ∧ W.l0biases k ≤ 7)
    (hcap : ∀ pt, PAWN ≤ pt → pt ≤ QUEEN →
      0 ≤ key.count c pt ∧ key.count c pt ≤ OutputWeightNet.max pt) :
    -112 ≤ accFromScratch W key c i ∧ accFromScratch W key c i ≤ 112 := by
  have hidx : ∀ r, r < 5 → r * HIDDEN_SIZE + i < INPUT_SIZE * HIDDEN_SIZE := by
    intro r hr
    unfold HIDDEN_SIZE INPUT_SIZE at *
    omega
  have c1 := hcap 1 (by decide) (by decide)
  have c2 := hcap 2 (by decide) (by decide)
  have c3 := hcap 3 (by decide) (by decide)
  have c4 := hcap 4 (by decide) (by decide)
  have c5 := hcap 5 (by decide) (by decide)
  have w1 := hW (0 * HIDDEN_SIZE + i) (hidx 0 (by decide))
  have w2 := hW (1 * HIDDEN_SIZE + i) (hidx 1 (by decide))
  have w3 := hW (2 * HIDDEN_SIZE + i) (hidx 2 (by decide))
  have w4 := hW (3 * HIDDEN_SIZE + i) (hidx 3 (by decide))
  have w5 := hW (4 * HIDDEN_SIZE + i) (hidx 4 (by decide))
  have b := hb i hi
  have m1 := mul_weight_bound _ _ 8 c1.1 c1.2 w1.1 w1.2
  have m2 := mul_weight_bound _ _ 2 c2.1 c2.2 w2.1 w2.2
  have m3 := mul_weight_bound _ _ 2 c3.1 c3.2 w3.1 w3.2
  have m4 := mul_weight_bound _ _ 2 c4.1 c4.2 w4.1 w4.2
  have m5 := mul_weight_bound _ _ 1 c5.1 c5.2 w5.1 w5.2
  unfold accFromScratch toInt16
  simp only [List.map_cons, List.map_nil, List.sum_cons, List.sum_nil, PAWN, KNIGHT, BISHOP,
    ROOK, QUEEN, Nat.sub_self, Nat.reduceSub, add_zero]
  generalize key.count c 1 * W.l0Weights (0 * HIDDEN_SIZE + i) = p1 at *
  generalize key.count c 2 * W.l0Weights (1 * HIDDEN_SIZE + i) = p2 at *
  generalize key.count c 3 * W.l0Weights (2 * HIDDEN_SIZE + i) = p3 at *
  generalize key.count c 4 * W.l0Weights (3 * HIDDEN_SIZE + i) = p4 at *
  generalize key.count c 5 * W.l0Weights (4 * HIDDEN_SIZE + i) = p5 at *
  omega

theorem runUpdates_accumulator (W : Weights) (raw : OutputWeightNet) (keys : List OWNKey)
    (last : OWNKey) (c : Color) (i : Nat) (hi : i < HIDDEN_SIZE) :
    (runUpdates W (OutputWeightNet.construct W raw) (keys ++ [last])).accumulator c i
      = accFromScratch W last c i := by
  have hrun : runUpdates W (OutputWeightNet.construct W raw) (keys ++ [last])
      = updateAccumulator W (runUpdates W (OutputWeightNet.construct W raw) keys) last := by
    simp [runUpdates, List.foldl_append]
  rw [runUpdates_invariant W (keys ++ [last]) _ (construct_invariant W raw) c i hi]
  apply accFromScratch_congr
  intro q hq
  rw [hrun]
  exact updateAccumulator_count W _ last c q hq

theorem exampleWeights_l0_range (k : Nat) :
    -7 ≤ exampleWeights.l0Weights k ∧ exampleWeights.l0Weights k ≤ 7 := by
  unfold exampleWeights
  by_cases h : k < 64 <;> simp [h]

theorem exampleWeights_bias_range (k : Nat) :
    -7 ≤ exampleWeights.l0biases k ∧ exampleWeights.l0biases k ≤ 7 := by
  simp [exampleWeights]

theorem onePawn_within_caps (c : Color) (pt : PieceType) (h1 : PAWN ≤ pt) (h2 : pt ≤ QUEEN) :
    0 ≤ (onePawn WHITE).count c pt ∧ (onePawn WHITE).count c pt ≤ OutputWeightNet.max pt := by
  unfold PAWN QUEEN at *
  interval_cases pt <;> cases c <;> decide

/-! ## Lemmas on planes and displacements -/

theorem planeOf_eq_planeOfDisp (ff fr tf tr : Int) :
    planeOf ff fr tf tr = planeOfDisp (tr - fr) (tf - ff) := by
  have c1 : ((0 : Int) = tf - ff) ↔ (ff = tf) := by omega
  have c2 : ((0 : Int) > tr - fr) ↔ (fr > tr) := by omega
  have c3 : ((0 : Int) = tr - fr) ↔ (fr = tr) := by omega
  have c4 : ((0 : Int) > tf - ff) ↔ (ff > tf) := by omega
  have c5 : ((0 : Int) + 0 = tr - fr + (tf - ff)) ↔ (fr + ff = tr + tf) := by omega
  have c6 : ((0 : Int) - 0 = tr - fr - (tf - ff)) ↔ (fr - ff = tr - tf) := by omega
  have c7 : ((0 : Int) - (tr - fr) > 1) ↔ (fr - tr > 1) := by omega
  have c8 : (tr - fr - 0 > 1) ↔ (tr - fr > 1) := by omega
  have c9 : (tf - ff - 0 > 1) ↔ (tf - ff > 1) := by omega
  have c10 : ((0 : Int) - (tf - ff) > 1) ↔ (ff - tf > 1) := by omega
  have v1 : (0 : Int) - (tr - fr) = fr - tr := by omega
  have v2 : tr - fr - 0 = tr - fr := by omega
  have v3 : (0 : Int) - (tf - ff) = ff - tf := by omega
  have v4 : tf - ff - 0 = tf - ff := by omega
  unfold planeOfDisp planeOf
  simp only [c1, c2, c3, c4, c5, c6, c7, c8, c9, c10, v1, v2, v3, v4]

theorem dispOfPlane_planeOfDisp (dr df : Int) (h1 : -7 ≤ dr) (h2 : dr ≤ 7) (h3 : -7 ≤ df)
    (h4 : df ≤ 7) (hs : IsShapeDisp dr df) : dispOfPlane (planeOfDisp dr df) = (dr, df) := by
  interval_cases dr <;> interval_cases df <;> first | rfl | exact absurd hs (by decide)

theorem isShapeDisp_of_isMoveShape {a b : Int} (h : IsMoveShape a b) :
    IsShapeDisp (rankOf b - rankOf a) (fileOf b - fileOf a) := by
  unfold IsMoveShape OnCommonLine IsKnightJump at h
  unfold IsShapeDisp
  have hne := @file_or_rank_ne a b
  generalize fileOf a = ff at *
  generalize rankOf a = fr at *
  generalize fileOf b = tf at *
  generalize rankOf b = tr at *
  rcases h with ⟨h0, h⟩ | h
  · have := hne h0
    left
    omega
  · right
    omega

theorem planeWitness_spec (p : Int) (h0 : 0 ≤ p) (h1 : p < 64) :
    IsSquare (planeOrigin p) ∧ IsSquare (planeDestination p) ∧
      IsMoveShape (planeOrigin p) (planeDestination p) ∧
      moveToLayer (planeOrigin p) (planeDestination p) = p := by
  interval_cases p <;> decide

/-! ## Lemmas on bbsToPaddedInput -/

theorem foldl_setInput (cells : List (Int × Int × Int)) (input : Int → Int → Int → Nat)
    (p r c : Int) :
    (cells.foldl (fun t cell => setInput t cell 1) input) p r c
      = if (p, r, c) ∈ cells then 1 else input p r c := by
  induction cells generalizing input with
  | nil => simp
  | cons x xs ih =>
    rw [List.foldl_cons, ih]
    by_cases hx : (p, r, c) ∈ xs
    · simp [hx]
    · by_cases he : (p, r, c) = x
      · simp [hx, he, setInput]
      · simp [hx, he, setInput]

theorem foldl_boards_eq (bitboards : Nat → Nat) (stm : Bool) (pcs : List Nat)
    (input : Int → Int → Int → Nat) :
    pcs.foldl
        (fun input pc =>
          (setSquares (bitboards pc)).foldl
            (fun inp sq => setInput inp (paddedCell stm pc sq) 1) input)
        input
      = (pcs.flatMap (fun pc => (setSquares (bitboards pc)).map (paddedCell stm pc))).foldl
          (fun t cell => setInput t cell 1) input := by
  induction pcs generalizing input with
  | nil => rfl
  | cons pc rest ih =>
    rw [List.foldl_cons, ih, List.flatMap_cons, List.foldl_append, List.foldl_map]

theorem bbsToPaddedInput_eq_written (bitboards : Nat → Nat) (stm : Bool) (p r c : Int) :
    bbsToPaddedInput bitboards stm p r c
      = if (p, r, c) ∈ writtenCells bitboards stm then 1 else 0 := by
  unfold bbsToPaddedInput writtenCells
  rw [foldl_boards_eq, foldl_setInput]

theorem mem_writtenCells (bitboards : Nat → Nat) (stm : Bool) (x : Int × Int × Int) :
    x ∈ writtenCells bitboards stm ↔
      ∃ pc, pc < 13 ∧ ∃ s, s < 64 ∧ (bitboards pc).testBit s = true ∧ paddedCell stm pc s = x := by
  simp only [writtenCells, setSquares, List.mem_flatMap, List.mem_map, List.mem_filter,
    List.mem_range]
  constructor
  · rintro ⟨pc, hpc, s, ⟨hs, hb⟩, rfl⟩
    exact ⟨pc, hpc, s, hs, hb, rfl⟩
  · rintro ⟨pc, hpc, s, hs, hb, rfl⟩
    exact ⟨pc, hpc, s, ⟨hs, hb⟩, rfl⟩

theorem orientSquare_true (s : Nat) (h : s < 64) :
    orientSquare true s = 8 * ((s : Int) / 8) + 7 - (s : Int) % 8 := by
  unfold orientSquare
  interval_cases s <;> rfl

theorem orientSquare_false (s : Nat) (h : s < 64) : orientSquare false s = 63 - (s : Int) := by
  unfold orientSquare
  interval_cases s <;> rfl

theorem orientSquare_range (stm : Bool) (s : Nat) (h : s < 64) :
    0 ≤ orientSquare stm s ∧ orientSquare stm s < 64 := by
  cases stm
  · rw [orientSquare_false s h]; omega
  · rw [orientSquare_true s h]; omega

theorem orientSquare_injective (stm : Bool) (s t : Nat) (hs : s < 64) (ht : t < 64)
    (hr : rankOf (orientSquare stm s) = rankOf (orientSquare stm t))
    (hf : fileOf (orientSquare stm s) = fileOf (orientSquare stm t)) : s = t := by
  unfold rankOf fileOf at *
  cases stm
  · rw [orientSquare_false s hs, orientSquare_false t ht] at hr hf; omega
  · rw [orientSquare_true s hs, orientSquare_true t ht] at hr hf; omega

theorem orientPiece_injective (stm : Bool) (q q' : Nat) (hq : q < 12) (hq' : q' < 12)
    (h : orientPiece stm q = orientPiece stm q') : q = q' := by
  unfold orientPiece at h
  cases stm
  · simp only [Bool.false_eq_true, if_false] at h
    split_ifs at h <;> omega
  · simp only [if_true] at h
    omega

theorem orientPiece_range (stm : Bool) (q : Nat) (hq : q < 12) :
    0 ≤ orientPiece stm q ∧ orientPiece stm q < 12 := by
  unfold orientPiece
  cases stm
  · simp only [Bool.false_eq_true, if_false]
    split_ifs <;> omega
  · simp only [if_true]
    omega

theorem paddedCell_eq (stm : Bool) (q s : Nat) (hs : s < 64) :
    paddedCell stm q s
      = (if stm then (q : Int) else (q : Int) - (if (q : Int) > 5 then 6 else -6),
          rankOf (orientSquare stm s) + 1, fileOf (orientSquare stm s) + 1) := by
  have h0 := orientSquare_range stm s hs
  unfold paddedCell rankOf fileOf
  cases stm
  · simp only [Bool.not_false, if_true, Bool.false_eq_true, if_false, xor_seven_cast,
      xor_fifty_six_cast]
    have e : (((s ^^^ 7) ^^^ 56 : Nat) : Int) = orientSquare false s := rfl
    rw [e, Int.tdiv_eq_ediv h0.1 (by decide), Int.tmod_eq_emod h0.1 (by decide)]
  · simp only [Bool.not_true, Bool.false_eq_true, if_false, if_true, xor_seven_cast]
    have e : ((s ^^^ 7 : Nat) : Int) = orientSquare true s := rfl
    rw [e, Int.tdiv_eq_ediv h0.1 (by decide), Int.tmod_eq_emod h0.1 (by decide)]

theorem paddedCell_of_piece (stm : Bool) (q s : Nat) (hq : q < 12) (hs : s < 64) :
    paddedCell stm q s
      = (orientPiece stm q, rankOf (orientSquare stm s) + 1, fileOf (orientSquare stm s) + 1) := by
  rw [paddedCell_eq stm q s hs]
  unfold orientPiece
  cases stm
  · simp only [Bool.false_eq_true, if_false]
    congr 1
    split_ifs <;> omega
  · simp only [if_true]

theorem mem_writtenCells_of_empty (bitboards : Nat → Nat) (stm : Bool) (h12 : bitboards 12 = 0)
    (x : Int × Int × Int) :
    x ∈ writtenCells bitboards stm ↔
      ∃ q s, q < 12 ∧ s < 64 ∧ (bitboards q).testBit s = true ∧
        x = (orientPiece stm q, rankOf (orientSquare stm s) + 1,
              fileOf (orientSquare stm s) + 1) := by
  rw [mem_writtenCells]
  constructor
  · rintro ⟨pc, hpc, s, hs, hb, rfl⟩
    have hne : pc ≠ 12 := by
      intro h
      rw [h, h12, Nat.zero_testBit] at hb
      exact Bool.false_ne_true hb
    have hlt : pc < 12 := by omega
    exact ⟨pc, s, hlt, hs, hb, paddedCell_of_piece stm pc s hlt hs⟩
  · rintro ⟨q, s, hq, hs, hb, rfl⟩
    exact ⟨q, by omega, s, hs, hb, paddedCell_of_piece stm q s hq hs⟩

/-! ## Claims on scoreMoveList and bbsToPaddedInput -/

/-- Counterexample to C11 as stated: for the move from square 12 to square 28
with `stm` true the cell read is (8, 2, 4), indexed by the oriented origin
square 11 (rank 1, file 3), not the cell (8, 4, 4) of the oriented destination
square 27 (rank 3, file 3). -/
theorem logitCell_not_destination :
    logitCell true (RootMove.mk 12 28) = (8, 2, 4) ∧
    (moveToLayer (orientSquare true 12) (orientSquare true 28),
      rankOf (orientSquare true 28) + 1, fileOf (orientSquare true 28) + 1) = (8, 4, 4) ∧
    logitCell true (RootMove.mk 12 28)
      ≠ (moveToLayer (orientSquare true 12) (orientSquare true 28),
          rankOf (orientSquare true 28) + 1, fileOf (orientSquare true 28) + 1) := by
  decide

/-- Claim C11, amended. For every candidate move and either side to move, the
logit `scoreMoveList` reads is the cell `out[plane][r + 1][f + 1]` where
`plane = moveToLayer(from', to')`, `from'` and `to'` are the origin and the
destination oriented to the side to move, and `r`, `f` are the rank and file of
the oriented origin square `from'`. -/
theorem logitCell_origin (stm : Bool) (rm : RootMove) :
    logitCell stm rm
      = (moveToLayer (orientSquare stm rm.from_sq) (orientSquare stm rm.to_sq),
          rankOf (orientSquare stm rm.from_sq) + 1, fileOf (orientSquare stm rm.from_sq) + 1) := by
  cases stm <;>
    simp [logitCell, orientSquare, xor_seven_cast, xor_fifty_six_cast]

/-- Claim C12. With an empty candidate list the second loop of `scoreMoveList`
makes no assignment, hence no division by `sum`, and the table `policies` after
the call is the table before it, whatever the float operations and `out` are. -/
theorem scoreMoveList_empty {F : Type} (ops : FloatOps F) (out : Int → Int → Int → F)
    (policies : Nat → Nat → Int) (stm : Bool) :
    policyWrites ops out [] stm = [] ∧ scoreMoveList ops out [] policies stm = policies := by
  constructor <;> rfl

/-- Claim C14. For every array of boards whose entry 12 is empty and either
value of `stm`, the tensor `bbsToPaddedInput` produces is the oriented one-hot
occupancy: for piece index `q` below 12 and square `s`, the cell
`[p][r + 1][f + 1]` with `p` the oriented piece index (`q`, or `q + 6` or
`q - 6` when `stm` is false) and `r`, `f` the rank and file of the oriented
square (XOR 7, also XOR 56 when `stm` is false) is 1 exactly when board `q` has
bit `s` set; every cell is 0 unless it is such a cell of a set bit; in
particular every cell in row or column 0 or 9 is 0. -/
theorem bbsToPaddedInput_one_hot (bitboards : Nat → Nat) (stm : Bool)
    (h12 : bitboards 12 = 0) :
    (∀ q s, q < 12 → s < 64 →
      (bbsToPaddedInput bitboards stm (orientPiece stm q) (rankOf (orientSquare stm s) + 1)
          (fileOf (orientSquare stm s) + 1) = 1 ↔ (bitboards q).testBit s = true)) ∧
    (∀ p r c, bbsToPaddedInput bitboards stm p r c = 0 ∨
      (bbsToPaddedInput bitboards stm p r c = 1 ∧
        ∃ q s, q < 12 ∧ s < 64 ∧ (bitboards q).testBit s = true ∧ p = orientPiece stm q ∧
          r = rankOf (orientSquare stm s) + 1 ∧ c = fileOf (orientSquare stm s) + 1)) ∧
    (∀ p r c, (r ≤ 0 ∨ 9 ≤ r ∨ c ≤ 0 ∨ 9 ≤ c) → bbsToPaddedInput bitboards stm p r c = 0) := by
  have hcell : ∀ p r c, bbsToPaddedInput bitboards stm p r c = 0 ∨
      (bbsToPaddedInput bitboards stm p r c = 1 ∧
        ∃ q s, q < 12 ∧ s < 64 ∧ (bitboards q).testBit s = true ∧ p = orientPiece stm q ∧
          r = rankOf (orientSquare stm s) + 1 ∧ c = fileOf (orientSquare stm s) + 1) := by
    intro p r c
    rw [bbsToPaddedInput_eq_written]
    by_cases hm : (p, r, c) ∈ writtenCells bitboards stm
    · right
      obtain ⟨q, s, hq, hs, hb, he⟩ := (mem_writtenCells_of_empty bitboards stm h12 _).1 hm
      simp only [Prod.mk.injEq] at he
      exact ⟨by simp [hm], q, s, hq, hs, hb, he.1, he.2.1, he.2.2⟩
    · left
      simp [hm]
  refine ⟨?_, hcell, ?_⟩
  · intro q s hq hs
    constructor
    · intro h1
      rcases hcell (orientPiece stm q) (rankOf (orientSquare stm s) + 1)
          (fileOf (orientSquare stm s) + 1) with h0 | ⟨_, q', s', hq', hs', hb, e1, e2, e3⟩
      · rw [h0] at h1
        exact absurd h1 (by decide)
      · have hqq := orientPiece_injective stm q q' hq hq' e1
        have hss := orientSquare_injective stm s s' hs hs' (by omega) (by omega)
        rw [hqq, hss]
        exact hb
    · intro hb
      rw [bbsToPaddedInput_eq_written]
      have hm : (orientPiece stm q, rankOf (orientSquare stm s) + 1,
          fileOf (orientSquare stm s) + 1) ∈ writtenCells bitboards stm :=
        (mem_writtenCells_of_empty bitboards stm h12 _).2 ⟨q, s, hq, hs, hb, rfl⟩
      simp [hm]
  · intro p r c hborder
    rcases hcell p r c with h0 | ⟨_, q, s, _, hs, _, _, e2, e3⟩
    · exact h0
    · have hr := orientSquare_range stm s hs
      unfold rankOf at e2
      unfold fileOf at e3
      omega

/-- Witness of C14: a single bit, square 8 of board 0, with `stm` false sets
the cell `[6][7][8]`. -/
theorem bbsToPaddedInput_one_hot_witness :
    (fun pc => if pc = 0 then 256 else 0 : Nat → Nat) 12 = 0 ∧
    (bbsToPaddedInput (fun pc => if pc = 0 then 256 else 0) false (orientPiece false 0)
        (rankOf (orientSquare false 8) + 1) (fileOf (orientSquare false 8) + 1) = 1 ↔
      ((fun pc => if pc = 0 then 256 else 0 : Nat → Nat) 0).testBit 8 = true) :=
  ⟨by decide,
    (bbsToPaddedInput_one_hot (fun pc => if pc = 0 then 256 else 0) false (by decide)).1 0 8
      (by decide) (by decide)⟩

/-- Claim C19, evaluated where the code departs from it. The loop runs over all
13 boards and uses the board index as channel when `stm` is true: with bit 0 of
board 12 set the one cell written is `input[12][1][8]`, outside the 12 channels
of the tensor. -/
theorem writtenCells_channel_twelve :
    writtenCells (fun pc => if pc = 12 then 1 else 0) true = [(12, 1, 8)] := by
  decide

/-! ## Claims on the constructor, the forward pass and the accumulator range -/

/-- Claim C15, evaluated where the code departs from it. The constructor fills
copies of the cache rows (`for (auto entry : cache)`), so a slot keeps what the
storage held. On storage whose slot (0, 0) holds a stale pointer, the slot is
still set after construction and the first `getWeights` call for the all-zero
signature is a hit that returns the stale buffer (42 in every entry), whereas
the forward pass gives first entry 0. -/
theorem construct_keeps_stale_slot :
    (OutputWeightNet.construct exampleWeights staleStorage).cache
        (cacheIndex (OWNKey.zero.key WHITE) (OWNKey.zero.key WHITE.opp))
      = some (List.replicate 32 42) ∧
    (getWeights exampleWeights (OutputWeightNet.construct exampleWeights staleStorage)
        OWNKey.zero WHITE zeroStack).1 = List.replicate 32 42 ∧
    (forward exampleWeights (accFromScratch exampleWeights OWNKey.zero) zeroStack).head? = some 0 := by
  refine ⟨staleStorage_slot, ?_, ?_⟩
  · rw [getWeights_of_some exampleWeights _ OWNKey.zero WHITE zeroStack _ staleStorage_slot]
  · rw [forward_head, forwardEntry_no_piece]

/-- Counterexample to C16 as stated: for the 16-bit values 200 and -200 the
factor `relu` returns is 0 and 56, not max(200, 0) = 200 and max(-200, 0) = 0. -/
theorem relu_narrows_first :
    relu (toInt8 200) = 0 ∧ max (200 : Int) 0 = 200 ∧
    relu (toInt8 (-200)) = 56 ∧ max (-200 : Int) 0 = 0 := by
  decide

/-- Claim C16, amended. For every accumulator value `a` in the 8-bit range
-128..127, the value the forward pass multiplies by a layer-1 weight,
`relu` of `a` narrowed to `int8_t`, is max(a, 0). -/
theorem relu_of_small (a : Int) (hlo : -128 ≤ a) (hhi : a ≤ 127) : relu (toInt8 a) = max a 0 := by
  have h : toInt8 a = a := by
    unfold toInt8
    omega
  rw [h]
  rfl

/-- Witness of the amended C16 at the value 100. -/
theorem relu_of_small_witness :
    ((-128 : Int) ≤ 100 ∧ (100 : Int) ≤ 127) ∧ relu (toInt8 100) = max 100 0 :=
  ⟨by decide, relu_of_small 100 (by decide) (by decide)⟩

/-- Claim C17, where the code departs from it. For every output index `i` and
hidden index `j` the index `i * HIDDEN_SIZE + j + OUTPUT_SIZE * HIDDEN_SIZE`
with which `forward` reads `l1Weights` for the black accumulator is at least
the declared length `OUTPUT_SIZE * HIDDEN_SIZE` of `l1Weights`: the read is
past the end of the array. -/
theorem l1IndexBlack_out_of_bounds (i j : Nat) : l1WeightsLength ≤ l1IndexBlack i j := by
  unfold l1IndexBlack l1WeightsLength
  omega

/-- Claim C20. If every l0 weight and l0 bias lies in [-7, 7] and every
pawn..queen count of the signature lies between 0 and its cap `max` (8, 2, 2,
2, 1), then every accumulator entry computed for that signature, from scratch
or by any sequence of updates ending with it, lies in [-112, 112], and its
narrowing to the 8-bit parameter of `relu` does not change it. -/
theorem accumulator_fits_int8 (W : Weights) (raw : OutputWeightNet) (keys : List OWNKey)
    (key : OWNKey) (c : Color) (i : Nat) (hi : i < HIDDEN_SIZE)
    (hW : ∀ k, k < INPUT_SIZE * HIDDEN_SIZE → -7 ≤ W.l0Weights k ∧ W.l0Weights k ≤ 7)
    (hb : ∀ k, k < HIDDEN_SIZE → -7 ≤ W.l0biases k ∧ W.l0biases k ≤ 7)
    (hcap : ∀ pt, PAWN ≤ pt → pt ≤ QUEEN →
      0 ≤ key.count c pt ∧ key.count c pt ≤ OutputWeightNet.max pt) :
    (runUpdates W (OutputWeightNet.construct W raw) (keys ++ [key])).accumulator c i
      = accFromScratch W key c i ∧
    -112 ≤ accFromScratch W key c i ∧ accFromScratch W key c i ≤ 112 ∧
    toInt8 (accFromScratch W key c i) = accFromScratch W key c i := by
  have hbound := accFromScratch_bound W key c i hi hW hb hcap
  refine ⟨runUpdates_accumulator W raw keys key c i hi, hbound.1, hbound.2, ?_⟩
  unfold toInt8
  omega

/-- Witness of C20: the signature with one white pawn under the example
weights, read at the white accumulator, hidden index 0. -/
theorem accumulator_fits_int8_witness :
    (runUpdates exampleWeights (OutputWeightNet.construct exampleWeights unsetStorage)
        ([] ++ [onePawn WHITE])).accumulator WHITE 0
      = accFromScratch exampleWeights (onePawn WHITE) WHITE 0 ∧
    -112 ≤ accFromScratch exampleWeights (onePawn WHITE) WHITE 0 ∧
    accFromScratch exampleWeights (onePawn WHITE) WHITE 0 ≤ 112 ∧
    toInt8 (accFromScratch exampleWeights (onePawn WHITE) WHITE 0)
      = accFromScratch exampleWeights (onePawn WHITE) WHITE 0 :=
  accumulator_fits_int8 exampleWeights unsetStorage [] (onePawn WHITE) WHITE 0 (by decide)
    (fun k _ => exampleWeights_l0_range k) (fun k _ => exampleWeights_bias_range k)
    (fun pt h1 h2 => onePawn_within_caps WHITE pt h1 h2)

/-! ## Claim on the separation of move shapes -/

/-- Claim C18. For two pairs of squares in 0..63, each shaped like a queen move
or a knight jump, `moveToLayer` gives the same plane if and only if the pairs
have the same rank displacement and the same file displacement; and every
plane in 0..63 is the plane of such a pair, so the 56 line displacements and
the 8 knight displacements correspond one-to-one to the planes 0..63. -/
theorem moveToLayer_separates_shapes :
    (∀ a b a' b' : Int, IsSquare a → IsSquare b → IsSquare a' → IsSquare b' →
      IsMoveShape a b → IsMoveShape a' b' →
      (moveToLayer a b = moveToLayer a' b' ↔
        (rankOf b - rankOf a = rankOf b' - rankOf a' ∧
          fileOf b - fileOf a = fileOf b' - fileOf a'))) ∧
    (∀ p : Int, 0 ≤ p → p < 64 →
      ∃ a b : Int, IsSquare a ∧ IsSquare b ∧ IsMoveShape a b ∧ moveToLayer a b = p) := by
  constructor
  · intro a b a' b' ha hb ha' hb' hs hs'
    rw [moveToLayer_eq_planeOf ha hb, moveToLayer_eq_planeOf ha' hb', planeOf_eq_planeOfDisp,
      planeOf_eq_planeOfDisp]
    have hd := isShapeDisp_of_isMoveShape hs
    have hd' := isShapeDisp_of_isMoveShape hs'
    have ba := file_rank_bounds ha
    have bb := file_rank_bounds hb
    have ba' := file_rank_bounds ha'
    have bb' := file_rank_bounds hb'
    have e := dispOfPlane_planeOfDisp _ _ (by omega) (by omega) (by omega) (by omega) hd
    have e' := dispOfPlane_planeOfDisp _ _ (by omega) (by omega) (by omega) (by omega) hd'
    constructor
    · intro h
      rw [h, e'] at e
      simp only [Prod.mk.injEq] at e
      exact ⟨e.1.symm, e.2.symm⟩
    · rintro ⟨h1, h2⟩
      rw [h1, h2]
  · intro p h0 h1
    exact ⟨planeOrigin p, planeDestination p, planeWitness_spec p h0 h1⟩

/-- Witness of C18: the moves 12 to 28 and 3 to 19 have the same displacement
(two ranks, no file) and the same plane. -/
theorem moveToLayer_separates_shapes_witness :
    (IsSquare 12 ∧ IsSquare 28 ∧ IsSquare 3 ∧ IsSquare 19 ∧ IsMoveShape 12 28 ∧
      IsMoveShape 3 19) ∧
    (moveToLayer 12 28 = moveToLayer 3 19 ↔
      (rankOf 28 - rankOf 12 = rankOf 19 - rankOf 3 ∧
        fileOf 28 - fileOf 12 = fileOf 19 - fileOf 3)) :=
  ⟨by decide,
    moveToLayer_separates_shapes.1 12 28 3 19 (by decide) (by decide) (by decide) (by decide)
      (by decide) (by decide)⟩

end Stockfish
